import Mathlib

set_option autoImplicit false

/-!
Verification of the password sync bridge (`PasswordSyncBridge`) of
`components/password_manager/core/browser/sync/` against its
natural-language specification.

The bridge implementation itself (`password_sync_bridge.cc`) is not part of
the inspected slice; only its unit tests are.  The definitions below are
therefore modelled from the specification (sections 4.3 to 4.6, 6 and 7),
kept faithful to the observable call sequences that the unit tests in
`password_sync_bridge_unittest.cc` pin down.  The local store
(`FakeDatabase`) is translated directly from the test file.

Machine integers (the `int` primary key of the store) are modelled as `Nat`;
the store only ever assigns non-negative keys, starting from 1.
Storage keys are the decimal string encodings of primary keys; calls that
cross the boundary towards the remote processor are recorded carrying the
primary key itself, whose decimal encoding `storageKeyStr` is the string
that crosses the wire.
-/

/-- A password record.  The first five fields form the natural-key tuple
(origin, username element, username value, password element, signon realm);
`password_value` is payload, excluded from natural-key comparison.
Translated from `autofill::PasswordForm` as used by the test
(`MakePasswordForm`, `CreateSpecifics`); the wire form
(`sync_pb::PasswordSpecificsData`) carries the same fields, so one
structure serves for both. -/
structure PasswordForm where
  origin : String
  username_element : String
  username_value : String
  password_element : String
  signon_realm : String
  password_value : String
deriving DecidableEq, Repr

/-- Kind of a local-store change record, from `PasswordStoreChange::Type`. -/
inductive ChangeType where
  | ADD
  | UPDATE
  | REMOVE
deriving DecidableEq, Repr

/-- A change record produced by the local store, from `PasswordStoreChange`:
a kind, the form snapshot, and the primary key of the affected row. -/
structure PasswordStoreChange where
  type : ChangeType
  form : PasswordForm
  primaryKey : Nat
deriving DecidableEq, Repr

/-- Modelled from the spec: URL normalization of the origin (canonical form
of the GURL followed by path escaping).  On the origins observed in the
tests this amounts to percent-escaping the colon and appending the
canonical trailing slash: `"http://www.origin.com"` becomes
`"http%3A//www.origin.com/"` (test `ShouldComputeClientTagHash`). -/
def escapeColons : List Char → List Char
  | [] => []
  | c :: rest =>
    if c = ':' then '%' :: '3' :: 'A' :: escapeColons rest
    else c :: escapeColons rest

/-- The URL-normalized, escaped origin string. -/
def normalizeOrigin (s : String) : String :=
  String.mk (escapeColons s.data) ++ "/"

/-- Modelled from the spec: the Identity Deriver
(`PasswordSyncBridge::GetClientTag`).  Concatenation of the URL-normalized
origin and the four remaining identifying natural-key fields, joined by the
fixed delimiter `"|"`.  The expected output format is pinned by the test
`ShouldComputeClientTagHash`. -/
def getClientTag (f : PasswordForm) : String :=
  normalizeOrigin f.origin ++ "|" ++ f.username_element ++ "|" ++
    f.username_value ++ "|" ++ f.password_element ++ "|" ++ f.signon_realm

/-- The numeric value of a decimal digit character, `none` otherwise. -/
def digitVal (c : Char) : Option Nat :=
  if c.isDigit then some (c.toNat - 48) else none

/-- Accumulating decimal parser over the character list of a storage key. -/
def parseDigits : List Char → Nat → Option Nat
  | [], acc => some acc
  | c :: rest, acc =>
    match digitVal c with
    | none => none
    | some d => parseDigits rest (acc * 10 + d)

/-- Modelled from the spec: the Key Translator's
`primaryKey(storageKey)` direction — a storage key is the decimal string
encoding of the local primary key; a string that is not such an encoding
has no primary key (`MalformedKey`). -/
def parsePrimaryKey (s : String) : Option Nat :=
  if s.data = [] then none else parseDigits s.data 0

/-- Modelled from the spec: the Key Translator's `storageKey(primaryKey)`
direction, the decimal string encoding of the primary key. -/
def storageKeyStr (pk : Nat) : String :=
  toString pk

/-- The local record store, translated from the test's `FakeDatabase`:
an association list from primary keys to forms plus the auto-increment
counter (`primary_key_`), which starts at 1 and is bumped only by
`addLogin`. -/
structure FakeDatabase where
  data : List (Nat × PasswordForm)
  nextKey : Nat
deriving DecidableEq, Repr

/-- The empty store with the counter at its initial value 1. -/
def FakeDatabase.empty : FakeDatabase :=
  ⟨[], 1⟩

/-- Row lookup by primary key. -/
def FakeDatabase.lookup (db : FakeDatabase) (pk : Nat) : Option PasswordForm :=
  (db.data.find? (fun p => p.1 == pk)).map (fun p => p.2)

/-- Whether a record is resident at the given primary key. -/
def FakeDatabase.resident (db : FakeDatabase) (pk : Nat) : Bool :=
  db.data.any (fun p => p.1 == pk)

/-- `FakeDatabase::AddLogin`: inserts at the auto-increment key, bumps the
counter, and returns the `ADD` change record carrying the assigned key. -/
def FakeDatabase.addLogin (db : FakeDatabase) (form : PasswordForm) :
    FakeDatabase × PasswordStoreChange :=
  (⟨db.data ++ [(db.nextKey, form)], db.nextKey + 1⟩,
   ⟨ChangeType.ADD, form, db.nextKey⟩)

/-- `FakeDatabase::AddLoginForPrimaryKey`: test-fixture insertion at an
explicit key; the auto-increment counter is not touched. -/
def FakeDatabase.addLoginForPrimaryKey (db : FakeDatabase) (pk : Nat)
    (form : PasswordForm) : FakeDatabase :=
  ⟨db.data ++ [(pk, form)], db.nextKey⟩

/-- In-place update of the row at the given primary key. -/
def FakeDatabase.updateAt (db : FakeDatabase) (pk : Nat) (form : PasswordForm) :
    FakeDatabase :=
  ⟨db.data.map (fun p => if p.1 == pk then (pk, form) else p), db.nextKey⟩

/-- `FakeDatabase::RemoveLogin`: erases the row at the given primary key. -/
def FakeDatabase.removeAt (db : FakeDatabase) (pk : Nat) : FakeDatabase :=
  ⟨db.data.filter (fun p => p.1 != pk), db.nextKey⟩

/-- A metadata-change operation, from `syncer::MetadataChangeList`
(`UpdateMetadata` / `ClearMetadata`), with the metadata blob opaque. -/
inductive MetadataOp where
  | updateMetadata (storageKey : String) (blob : String)
  | clearMetadata (storageKey : String)
deriving DecidableEq, Repr

/-- The metadata store's contents: opaque blobs keyed by storage key. -/
abbrev MetadataStore := List (String × String)

/-- Persisting one metadata operation into the metadata store
(`UpdateSyncMetadata` / `ClearSyncMetadata`). -/
def applyMetadataOp (mds : MetadataStore) : MetadataOp → MetadataStore
  | MetadataOp.updateMetadata sk blob => (sk, blob) :: mds.filter (fun p => p.1 != sk)
  | MetadataOp.clearMetadata sk => mds.filter (fun p => p.1 != sk)

/-- Persisting a whole metadata change list, in order. -/
def applyMetadataChangeList (mds : MetadataStore) (mcl : List MetadataOp) :
    MetadataStore :=
  mcl.foldl applyMetadataOp mds

/-- A remote-origin change, from `syncer::EntityChange`: a Create arrives
without a storage key; Update and Delete carry the storage key string. -/
inductive EntityChange where
  | add (data : PasswordForm)
  | update (storageKey : String) (data : PasswordForm)
  | delete (storageKey : String)
deriving DecidableEq, Repr

/-- The error taxonomy of the merge/apply entry points (spec section 7):
a storage key that does not decode (`malformedKey`) or decodes to no
resident record (`notFound`). -/
inductive ModelError where
  | notFound
  | malformedKey
deriving DecidableEq, Repr

/-- One observable interaction of the bridge with its collaborators: the
local store (transaction boundaries, row mutations, the post-commit
notification) and the remote change processor (`Put`, `Delete`,
`UpdateStorageKey`).  Calls towards the processor are recorded with the
primary key whose decimal encoding `storageKeyStr` is the storage key
passed, and with the identity of the metadata store the attached
metadata change list is scoped to. -/
inductive Event where
  | beginTransaction
  | addLoginSync (form : PasswordForm)
  | updateLoginSync (form : PasswordForm)
  | removeLoginSync (primaryKey : Nat)
  | commitTransaction
  | notifyLoginsChanged (changes : List PasswordStoreChange)
  | put (primaryKey : Nat) (payload : PasswordForm) (metadataStoreId : Nat)
  | del (primaryKey : Nat) (metadataStoreId : Nat)
  | updateStorageKey (primaryKey : Nat)
deriving DecidableEq, Repr

/-- The processor call the Local-Origin Relay makes for one change record:
`Put` for Add/Update, `Delete` for Remove, each keyed by the record's
storage key and carrying a metadata change list scoped to the given
metadata store. -/
def forwardChange (mdStoreId : Nat) (c : PasswordStoreChange) : Event :=
  match c.type with
  | ChangeType.ADD => Event.put c.primaryKey c.form mdStoreId
  | ChangeType.UPDATE => Event.put c.primaryKey c.form mdStoreId
  | ChangeType.REMOVE => Event.del c.primaryKey mdStoreId

/-- Modelled from the spec: the Local-Origin Relay
(`PasswordSyncBridge::ActOnPasswordStoreChanges`).  If the bridge is
itself in the middle of applying remote-origin changes the notification is
not forwarded — this suppression is pinned by the tests
(`ShouldApplyRemoteCreation` and friends wire `NotifyLoginsChanged`
straight back into `ActOnPasswordStoreChanges` with tracking enabled and
still demand zero `Put`/`Delete` calls).  Otherwise, if the processor is
not tracking metadata nothing happens; otherwise every change record is
forwarded. -/
def actOnPasswordStoreChanges (isProcessingRemoteChanges : Bool)
    (tracking : Bool) (mdStoreId : Nat)
    (changes : List PasswordStoreChange) : List Event :=
  if isProcessingRemoteChanges then []
  else if tracking = false then []
  else changes.map (forwardChange mdStoreId)

/-- Modelled from the spec: the Incremental Applier's handling of a single
remote change (spec section 4.5).  A Create adds the record (the store
assigns the fresh auto-increment key) and reports the new storage key via
`UpdateStorageKey`; an Update translates the storage key and overwrites the
resident record (`notFound` when absent, `malformedKey` when the key does
not decode); a Delete translates the storage key and removes the record.
Returns the updated store, the change records produced, and the emitted
interaction events. -/
def applyOneChange (db : FakeDatabase) (c : EntityChange) :
    Except ModelError (FakeDatabase × List PasswordStoreChange × List Event) :=
  match c with
  | EntityChange.add f =>
    let pk := db.nextKey
    let r := db.addLogin f
    Except.ok (r.1, [r.2], [Event.addLoginSync f, Event.updateStorageKey pk])
  | EntityChange.update sk f =>
    match parsePrimaryKey sk with
    | none => Except.error ModelError.malformedKey
    | some pk =>
      match db.lookup pk with
      | none => Except.error ModelError.notFound
      | some _ =>
        Except.ok (db.updateAt pk f, [⟨ChangeType.UPDATE, f, pk⟩],
          [Event.updateLoginSync f])
  | EntityChange.delete sk =>
    match parsePrimaryKey sk with
    | none => Except.error ModelError.malformedKey
    | some pk =>
      match db.lookup pk with
      | none => Except.error ModelError.notFound
      | some f =>
        Except.ok (db.removeAt pk, [⟨ChangeType.REMOVE, f, pk⟩],
          [Event.removeLoginSync pk])

/-- Sequential processing of a remote change list, accumulating the change
records and events; the first failure aborts the whole list. -/
def applyChangeList (db : FakeDatabase) :
    List EntityChange →
    Except ModelError (FakeDatabase × List PasswordStoreChange × List Event)
  | [] => Except.ok (db, [], [])
  | c :: rest =>
    match applyOneChange db c with
    | Except.error e => Except.error e
    | Except.ok (db₁, cs₁, es₁) =>
      match applyChangeList db₁ rest with
      | Except.error e => Except.error e
      | Except.ok (db₂, cs₂, es₂) => Except.ok (db₂, cs₁ ++ cs₂, es₁ ++ es₂)

/-- Modelled from the spec: `PasswordSyncBridge::ApplySyncChanges`
(spec section 4.5).  An empty remote change list opens no transaction and
raises no notification; the metadata changes are persisted regardless.
Otherwise all remote changes run inside one transaction; on any failure the
transaction is rolled back, nothing is persisted and the error is surfaced.
On success the transaction commits, the single post-commit notification
carries the full change list, and the store's notification channel hands
that list to the relay, which — being a remote-origin batch — forwards
nothing.  Returns the final store, metadata store, interaction trace, and
optional error. -/
def applySyncChanges (mdStoreId : Nat) (tracking : Bool) (db : FakeDatabase)
    (mds : MetadataStore) (mcl : List MetadataOp)
    (changes : List EntityChange) :
    FakeDatabase × MetadataStore × List Event × Option ModelError :=
  if changes.isEmpty then
    (db, applyMetadataChangeList mds mcl, [], none)
  else
    match applyChangeList db changes with
    | Except.error e => (db, mds, [Event.beginTransaction], some e)
    | Except.ok (db', cs, es) =>
      let notifyEvs :=
        if cs.isEmpty then []
        else Event.notifyLoginsChanged cs ::
          actOnPasswordStoreChanges true tracking mdStoreId cs
      (db', applyMetadataChangeList mds mcl,
       Event.beginTransaction :: es ++ [Event.commitTransaction] ++ notifyEvs,
       none)

/-- The batch entry `GetData` produces for one requested storage key: the
resident record under that key, or nothing when the key does not decode or
no record is resident. -/
def getDataOne (db : FakeDatabase) (sk : String) :
    Option (String × PasswordForm) :=
  match parsePrimaryKey sk with
  | none => none
  | some pk => (db.lookup pk).map (fun f => (sk, f))

/-- `GetData`: deliver, for each requested storage key, the resident record
under that key; keys that do not decode or have no resident record
contribute no entry. -/
def getData (db : FakeDatabase) (storageKeys : List String) :
    List (String × PasswordForm) :=
  storageKeys.filterMap (getDataOne db)

/-- The client-tag index over the local snapshot (spec section 4.4 step 1):
one entry `(tag, primaryKey)` per resident record. -/
def localIndex (db : FakeDatabase) : List (String × Nat) :=
  db.data.map (fun p => (getClientTag p.2, p.1))

/-- First primary key in the index carrying the given tag. -/
def lookupTag (index : List (String × Nat)) (tag : String) : Option Nat :=
  (index.find? (fun p => p.1 == tag)).map (fun p => p.2)

/-- Modelled from the spec: the Merge Engine's handling of one remote
record (spec section 4.4 step 2).  A tag match overwrites the local
record's payload with the remote version (remote wins) and reports the
implied storage key — the existing local primary key — via
`UpdateStorageKey` without requesting a new one (the call with the
existing key is pinned by `ShouldMergeSyncRemoteAndLocalPasswords`).
A remote-only record is added (the store assigns the fresh key) and the
newly assigned storage key is reported via `UpdateStorageKey`. -/
def mergeOneRemote (index : List (String × Nat)) (db : FakeDatabase)
    (r : PasswordForm) :
    FakeDatabase × List PasswordStoreChange × List Event :=
  match lookupTag index (getClientTag r) with
  | some pk =>
    (db.updateAt pk r, [⟨ChangeType.UPDATE, r, pk⟩],
     [Event.updateLoginSync r, Event.updateStorageKey pk])
  | none =>
    let pk := db.nextKey
    let res := db.addLogin r
    (res.1, [res.2], [Event.addLoginSync r, Event.updateStorageKey pk])

/-- Sequential processing of the remote snapshot against the fixed local
index, accumulating change records and events. -/
def mergeRemotes (index : List (String × Nat)) (db : FakeDatabase) :
    List PasswordForm → FakeDatabase × List PasswordStoreChange × List Event
  | [] => (db, [], [])
  | r :: rest =>
    let r₁ := mergeOneRemote index db r
    let r₂ := mergeRemotes index r₁.1 rest
    (r₂.1, r₁.2.1 ++ r₂.2.1, r₁.2.2 ++ r₂.2.2)

/-- The `Put` uploads for local-only records (spec section 4.4 step 3):
every record of the local snapshot whose tag matches no remote record is
uploaded under its existing storage key, with the metadata change list
scoped to the store's metadata store; no local mutation accompanies it. -/
def localOnlyPuts (mdStoreId : Nat) (snapshot : List (Nat × PasswordForm))
    (remoteTags : List String) : List Event :=
  snapshot.filterMap (fun p =>
    if remoteTags.contains (getClientTag p.2) then none
    else some (Event.put p.1 p.2 mdStoreId))

/-- Modelled from the spec: `PasswordSyncBridge::MergeSyncData`
(spec section 4.4).  One transaction covers all local mutations; remote
records are matched by client tag against the index of the initial local
snapshot; local-only records are uploaded via `Put`; after the commit the
single notification carries the full change list and, being a
bridge-produced batch, is not forwarded by the relay.  Metadata changes
are persisted within the same logical operation. -/
def mergeSyncData (mdStoreId : Nat) (tracking : Bool) (db : FakeDatabase)
    (mds : MetadataStore) (mcl : List MetadataOp)
    (remotes : List PasswordForm) :
    FakeDatabase × MetadataStore × List Event × Option ModelError :=
  let index := localIndex db
  let res := mergeRemotes index db remotes
  let puts := localOnlyPuts mdStoreId db.data (remotes.map getClientTag)
  let notifyEvs :=
    if res.2.1.isEmpty then []
    else Event.notifyLoginsChanged res.2.1 ::
      actOnPasswordStoreChanges true tracking mdStoreId res.2.1
  (res.1, applyMetadataChangeList mds mcl,
   Event.beginTransaction :: res.2.2 ++ puts ++ [Event.commitTransaction] ++
     notifyEvs,
   none)

/-- The test fixture's password form for a given signon realm
(`MakePasswordForm`). -/
def makePasswordForm (signonRealm : String) : PasswordForm :=
  ⟨"http://www.origin.com", "username_element", "username_value",
   "password_element", signonRealm, ""⟩

/-- The event the local store's change record corresponds to, used to
relate a notification's change list to the mutation events of its batch. -/
def changeToEvent (c : PasswordStoreChange) : Event :=
  match c.type with
  | ChangeType.ADD => Event.addLoginSync c.form
  | ChangeType.UPDATE => Event.updateLoginSync c.form
  | ChangeType.REMOVE => Event.removeLoginSync c.primaryKey

/-- Whether an event is a local-store row mutation. -/
def isLocalMutation : Event → Bool
  | Event.addLoginSync _ => true
  | Event.updateLoginSync _ => true
  | Event.removeLoginSync _ => true
  | _ => false

/-- Whether an event is a `Put` keyed by the given primary key. -/
def isPutFor (pk : Nat) : Event → Bool
  | Event.put k _ _ => k == pk
  | _ => false

/-- Whether an event is any `Put`. -/
def isPut : Event → Bool
  | Event.put _ _ _ => true
  | _ => false

/-- Whether an event is a post-commit notification. -/
def isNotifyEvent : Event → Bool
  | Event.notifyLoginsChanged _ => true
  | _ => false

/-- The metadata-store scope an outgoing processor call carries, if any. -/
def eventScope : Event → Option Nat
  | Event.put _ _ m => some m
  | Event.del _ m => some m
  | _ => none

/-- The local snapshot of the merge test
`ShouldMergeSyncRemoteAndLocalPasswords`: Form 1 (realm "abc") resident at
primary key 1000 and Form 2 (realm "def") at 1001, inserted through the
fixture path that leaves the auto-increment counter at 1. -/
def mergeTestDb : FakeDatabase :=
  (FakeDatabase.empty.addLoginForPrimaryKey 1000
      (makePasswordForm "abc")).addLoginForPrimaryKey 1001
    (makePasswordForm "def")

/-- A change list with one Add, one Update and one Remove, as in the relay
tests (`ShouldForwardLocalChangesToTheProcessor`). -/
def relayTestChanges : List PasswordStoreChange :=
  [⟨ChangeType.ADD, makePasswordForm "abc", 1⟩,
   ⟨ChangeType.UPDATE, makePasswordForm "def", 2⟩,
   ⟨ChangeType.REMOVE, makePasswordForm "xyz", 3⟩]

/-- The store invariant of a database whose rows were all assigned by the
auto-increment counter: every resident primary key is below the counter. -/
def keysBelow (db : FakeDatabase) : Prop :=
  ∀ p ∈ db.data, p.1 < db.nextKey

/-- Number of remote records of the list that match no local client tag
(each of which consumes one fresh auto-increment key during the merge). -/
def countUnmatched (index : List (String × Nat)) (rs : List PasswordForm) :
    Nat :=
  rs.countP (fun r => (lookupTag index (getClientTag r)).isNone)

/-- The change records `mergeRemotes` produces, expressed as a function of
the index, the value of the auto-increment counter and the remote list
(the store state influences the outcome only through the counter). -/
def mergeChangeSpec (index : List (String × Nat)) :
    Nat → List PasswordForm → List PasswordStoreChange
  | _, [] => []
  | k, r :: rest =>
    match lookupTag index (getClientTag r) with
    | some pk => ⟨ChangeType.UPDATE, r, pk⟩ :: mergeChangeSpec index k rest
    | none => ⟨ChangeType.ADD, r, k⟩ :: mergeChangeSpec index (k + 1) rest

/-- The events `mergeRemotes` emits, expressed like `mergeChangeSpec`. -/
def mergeEventSpec (index : List (String × Nat)) :
    Nat → List PasswordForm → List Event
  | _, [] => []
  | k, r :: rest =>
    match lookupTag index (getClientTag r) with
    | some pk =>
      Event.updateLoginSync r :: Event.updateStorageKey pk ::
        mergeEventSpec index k rest
    | none =>
      Event.addLoginSync r :: Event.updateStorageKey k ::
        mergeEventSpec index (k + 1) rest

theorem countP_eq_one_of_nodup_map {α β : Type} [DecidableEq β] (f : α → β)
    (l : List α) (p : α → Bool) (a : α) (hn : (l.map f).Nodup) (ha : a ∈ l)
    (hpa : p a = true) (hdet : ∀ x ∈ l, p x = true → f x = f a) :
    l.countP p = 1 := by
  induction l with
  | nil => cases ha
  | cons b rest ih =>
    simp only [List.map_cons, List.nodup_cons] at hn
    rcases List.mem_cons.mp ha with hab | harest
    · subst hab
      have hz : rest.countP p = 0 := by
        rw [List.countP_eq_zero]
        intro x hx hpx
        exact hn.1 (hdet x (List.mem_cons_of_mem _ hx) hpx ▸ List.mem_map_of_mem f hx)
      simp [List.countP_cons, hpa, hz]
    · have hpb : p b = false := by
        by_contra hpb
        have hfb : f b = f a := hdet b (List.mem_cons_self _ _) (by
          cases hb : p b
          · exact absurd hb hpb
          · rfl)
        exact hn.1 (hfb ▸ List.mem_map_of_mem f harest)
      have h1 : rest.countP p = 1 :=
        ih hn.2 harest (fun x hx hpx => hdet x (List.mem_cons_of_mem _ hx) hpx)
      simp [List.countP_cons, hpb, h1]

/-- C9: `GetClientTag` returns the URL-normalized origin concatenated with
the four identifying natural-key fields, joined by the fixed delimiter
`"|"`; it is a pure function of the natural-key tuple, so two records with
identical natural-key tuples (regardless of payload) produce identical
tags. -/
theorem getClientTag_natural_key (f g : PasswordForm) :
    getClientTag f =
      normalizeOrigin f.origin ++ "|" ++ f.username_element ++ "|" ++
        f.username_value ++ "|" ++ f.password_element ++ "|" ++
        f.signon_realm ∧
    (f.origin = g.origin → f.username_element = g.username_element →
      f.username_value = g.username_value →
      f.password_element = g.password_element →
      f.signon_realm = g.signon_realm → getClientTag f = getClientTag g) := by
  refine ⟨rfl, ?_⟩
  intro h1 h2 h3 h4 h5
  simp only [getClientTag, h1, h2, h3, h4, h5]

/-- Witness for C9: two concrete forms sharing the natural-key tuple but
with different payloads get the same tag, which is the format checked by
`ShouldComputeClientTagHash`. -/
theorem getClientTag_natural_key_witness :
    getClientTag ⟨"http://www.origin.com", "username_element",
        "username_value", "password_element", "signon_realm", "secret"⟩ =
      getClientTag (makePasswordForm "signon_realm") ∧
    getClientTag (makePasswordForm "signon_realm") =
      String.append "http%3A//www.origin.com/"
        "|username_element|username_value|password_element|signon_realm" :=
  ⟨(getClientTag_natural_key
      ⟨"http://www.origin.com", "username_element", "username_value",
       "password_element", "signon_realm", "secret"⟩
      (makePasswordForm "signon_realm")).2 rfl rfl rfl rfl rfl,
   by decide⟩

/-- C10: for a storage key with no resident record (whether the key fails
to decode or decodes to an absent primary key), `GetData` delivers a batch
with no entry for that key — in particular, the batch for that key alone is
empty — rather than an error or a placeholder entry. -/
theorem getData_non_existing_storage_key (db : FakeDatabase)
    (storageKeys : List String) (sk : String)
    (h : ∀ pk, parsePrimaryKey sk = some pk → db.lookup pk = none) :
    (∀ e ∈ getData db storageKeys, e.1 ≠ sk) ∧ getData db [sk] = [] := by
  have hone : getDataOne db sk = none := by
    unfold getDataOne
    cases hp : parsePrimaryKey sk with
    | none => rfl
    | some pk =>
      show Option.map (fun f => (sk, f)) (db.lookup pk) = none
      rw [h pk hp]
      rfl
  constructor
  · intro e he
    simp only [getData, List.mem_filterMap] at he
    obtain ⟨k, -, hk⟩ := he
    unfold getDataOne at hk
    cases hp : parsePrimaryKey k with
    | none => rw [hp] at hk; exact Option.noConfusion hk
    | some pk =>
      rw [hp] at hk
      change Option.map (fun f => (k, f)) (db.lookup pk) = some e at hk
      cases hf : db.lookup pk with
      | none => rw [hf] at hk; exact Option.noConfusion hk
      | some f =>
        rw [hf] at hk
        rw [Option.map_some'] at hk
        injection hk with hk
        subst hk
        intro hesk
        have hksk : k = sk := hesk
        subst hksk
        rw [h pk hp] at hf
        exact Option.noConfusion hf
  · simp [getData, List.filterMap_cons, hone]

/-- Witness for C10: a store holding a record at primary key 1000 delivers
an empty batch for the absent storage key `"1"`
(test `ShouldNotGetDataForNonExistingStorageKey`). -/
theorem getData_non_existing_storage_key_witness :
    (∀ e ∈ getData (FakeDatabase.empty.addLoginForPrimaryKey 1000
        (makePasswordForm "abc")) ["1"], e.1 ≠ "1") ∧
      getData (FakeDatabase.empty.addLoginForPrimaryKey 1000
        (makePasswordForm "abc")) ["1"] = [] :=
  getData_non_existing_storage_key
    (FakeDatabase.empty.addLoginForPrimaryKey 1000 (makePasswordForm "abc"))
    ["1"] "1"
    (by
      intro pk hp
      have h1 : parsePrimaryKey "1" = some 1 := by decide
      rw [h1] at hp
      cases hp
      decide)

/-- C7: `ApplySyncChanges` with an empty remote-change list and a non-empty
metadata change list persists the metadata updates to the metadata store,
raises no local-mutation notification (indeed opens no transaction and
emits no interaction at all), leaves the record store untouched, and
returns no error. -/
theorem applySyncChanges_metadata_only (mdStoreId : Nat) (tracking : Bool)
    (db : FakeDatabase) (mds : MetadataStore) (mcl : List MetadataOp)
    (h : mcl ≠ []) :
    applySyncChanges mdStoreId tracking db mds mcl [] =
      (db, applyMetadataChangeList mds mcl, [], none) ∧
    (∀ e ∈ (applySyncChanges mdStoreId tracking db mds mcl []).2.2.1,
      isNotifyEvent e = false) := by
  constructor
  · simp [applySyncChanges]
  · simp [applySyncChanges]

/-- Witness for C7: the scenario of `ShouldApplyMetadataWithEmptySyncChanges`
— one buffered metadata update for storage key `"1"`, no remote changes:
the update lands in the metadata store, no notification is raised, no
error. -/
theorem applySyncChanges_metadata_only_witness :
    applySyncChanges 0 true FakeDatabase.empty []
        [MetadataOp.updateMetadata "1" "TestServerId"] [] =
      (FakeDatabase.empty,
       applyMetadataChangeList [] [MetadataOp.updateMetadata "1" "TestServerId"],
       [], none) ∧
    (∀ e ∈ (applySyncChanges 0 true FakeDatabase.empty []
        [MetadataOp.updateMetadata "1" "TestServerId"] []).2.2.1,
      isNotifyEvent e = false) :=
  applySyncChanges_metadata_only 0 true FakeDatabase.empty []
    [MetadataOp.updateMetadata "1" "TestServerId"] (by decide)

theorem count_map_forward (mdStoreId : Nat) (changes : List PasswordStoreChange)
    (ev : Event) :
    (changes.map (forwardChange mdStoreId)).count ev =
      changes.countP (fun c => forwardChange mdStoreId c == ev) := by
  induction changes with
  | nil => rfl
  | cons c rest ih =>
    simp only [List.map_cons, List.count_cons, List.countP_cons, ih]

theorem forwardChange_eq_put (mdStoreId : Nat) (c : PasswordStoreChange)
    (pk : Nat) (f : PasswordForm) :
    (forwardChange mdStoreId c == Event.put pk f mdStoreId) =
      ((decide (c.type ≠ ChangeType.REMOVE)) && c.primaryKey == pk &&
        c.form == f) := by
  rcases c with ⟨t, cf, cpk⟩
  cases t <;> (rw [Bool.eq_iff_iff]; simp [forwardChange, and_assoc])

theorem forwardChange_eq_del (mdStoreId : Nat) (c : PasswordStoreChange)
    (pk : Nat) :
    (forwardChange mdStoreId c == Event.del pk mdStoreId) =
      (c.type == ChangeType.REMOVE && c.primaryKey == pk) := by
  rcases c with ⟨t, cf, cpk⟩
  cases t <;> (rw [Bool.eq_iff_iff]; simp [forwardChange, and_assoc])

/-- C5 (amended): contract of the Local-Origin Relay
(`ActOnPasswordStoreChanges`) on a notification it receives while the
bridge is not itself applying remote-origin changes: with the processor
not tracking metadata, zero `Put` and zero `Delete` calls are made; with
tracking enabled, each Add/Update change record yields exactly one `Put`
call carrying that record's storage key and payload, each Remove yields
exactly one `Delete` call with its storage key, and every call carries a
metadata change list scoped to the local store's metadata store.  For the
batches the bridge itself produced while applying remote changes the relay
issues no calls at all. -/
theorem actOnPasswordStoreChanges_spec (tracking : Bool) (mdStoreId : Nat)
    (changes : List PasswordStoreChange) :
    actOnPasswordStoreChanges true tracking mdStoreId changes = [] ∧
    actOnPasswordStoreChanges false false mdStoreId changes = [] ∧
    (tracking = true →
      (∀ pk f,
        (actOnPasswordStoreChanges false tracking mdStoreId changes).count
            (Event.put pk f mdStoreId) =
          changes.countP (fun c => (decide (c.type ≠ ChangeType.REMOVE)) &&
            c.primaryKey == pk && c.form == f)) ∧
      (∀ pk,
        (actOnPasswordStoreChanges false tracking mdStoreId changes).count
            (Event.del pk mdStoreId) =
          changes.countP (fun c => c.type == ChangeType.REMOVE &&
            c.primaryKey == pk)) ∧
      (∀ e ∈ actOnPasswordStoreChanges false tracking mdStoreId changes,
        eventScope e = some mdStoreId)) := by
  refine ⟨rfl, rfl, ?_⟩
  intro ht
  subst ht
  refine ⟨?_, ?_, ?_⟩
  · intro pk f
    show (changes.map (forwardChange mdStoreId)).count (Event.put pk f mdStoreId) = _
    rw [count_map_forward]
    exact List.countP_congr (fun c _ => by
      rw [forwardChange_eq_put mdStoreId c pk f])
  · intro pk
    show (changes.map (forwardChange mdStoreId)).count (Event.del pk mdStoreId) = _
    rw [count_map_forward]
    exact List.countP_congr (fun c _ => by
      rw [forwardChange_eq_del mdStoreId c pk])
  · intro e he
    have he2 : e ∈ changes.map (forwardChange mdStoreId) := he
    obtain ⟨c, -, hc⟩ := List.mem_map.mp he2
    subst hc
    rcases c with ⟨t, cf, cpk⟩
    cases t <;> rfl

/-- Witness for C5: the change list of
`ShouldForwardLocalChangesToTheProcessor` (an Add at key 1, an Update at
key 2, a Remove at key 3) with tracking enabled yields exactly one `Put`
for the added record. -/
theorem actOnPasswordStoreChanges_spec_witness :
    (actOnPasswordStoreChanges false true 0 relayTestChanges).count
        (Event.put 1 (makePasswordForm "abc") 0) =
      relayTestChanges.countP (fun c =>
        (decide (c.type ≠ ChangeType.REMOVE)) && c.primaryKey == 1 &&
          c.form == makePasswordForm "abc") ∧
    relayTestChanges.countP (fun c =>
        (decide (c.type ≠ ChangeType.REMOVE)) && c.primaryKey == 1 &&
          c.form == makePasswordForm "abc") = 1 :=
  ⟨((actOnPasswordStoreChanges_spec true 0 relayTestChanges).2.2 rfl).1 1
      (makePasswordForm "abc"),
   by decide⟩

/-- Counterexample for C5 as stated: a local-store mutation notification
carrying an Add change record is delivered to the relay while the bridge
is applying remote changes; the processor is tracking metadata, yet the
relay issues no `Put` call for it — the claim's "each Add/Update change
record yields exactly one Put call" fails on bridge-produced batches
(exactly the behavior the tests `ShouldApplyRemoteCreation` and
`ShouldApplyRemoteUpdate` demand from the processor mock). -/
theorem actOnPasswordStoreChanges_remote_counterexample :
    ¬ ((actOnPasswordStoreChanges true true 0
          [⟨ChangeType.ADD, makePasswordForm "abc", 1⟩]).countP
        (isPutFor 1) = 1) := by
  decide

/-- Counterexample for C4 as stated: in the scenario of
`ShouldApplyRemoteCreation` (empty store, one remote Create), the
`UpdateStorageKey` call occurs strictly before `CommitTransaction` in the
interaction trace, not after the transaction commits. -/
theorem applySyncChanges_updateStorageKey_before_commit :
    Event.updateStorageKey 1 ∈
        (applySyncChanges 0 true FakeDatabase.empty [] []
          [EntityChange.add (makePasswordForm "abc")]).2.2.1 ∧
    (applySyncChanges 0 true FakeDatabase.empty [] []
          [EntityChange.add (makePasswordForm "abc")]).2.2.1.indexOf
        (Event.updateStorageKey 1) <
      (applySyncChanges 0 true FakeDatabase.empty [] []
          [EntityChange.add (makePasswordForm "abc")]).2.2.1.indexOf
        Event.commitTransaction := by
  decide

/-- Counterexample for C1 as stated: in the scenario of
`ShouldMergeSyncRemoteAndLocalPasswords`, Form 2 (realm "def") is a matched
pair — its client tag is matched to the resident record at primary key
1001 — yet the merge issues exactly one `UpdateStorageKey` call carrying
that existing storage key, contradicting "no UpdateStorageKey call for
that record" (the call is demanded by the test's expectation
`UpdateStorageKey(_, kPrimaryKeyStr2, _)`). -/
theorem mergeSyncData_matched_updateStorageKey_counterexample :
    lookupTag (localIndex mergeTestDb)
        (getClientTag (makePasswordForm "def")) = some 1001 ∧
    (mergeSyncData 7 true mergeTestDb [] []
          [makePasswordForm "def", makePasswordForm "xyz"]).2.2.1.count
        (Event.updateStorageKey 1001) = 1 := by
  decide


theorem applyChangeList_nil (db : FakeDatabase) :
    applyChangeList db [] = Except.ok (db, [], []) := rfl

theorem applyChangeList_cons_error (db : FakeDatabase) (c : EntityChange)
    (rest : List EntityChange) (e : ModelError)
    (hc : applyOneChange db c = Except.error e) :
    applyChangeList db (c :: rest) = Except.error e := by
  show (match applyOneChange db c with
        | Except.error e => Except.error e
        | Except.ok (db₁, cs₁, es₁) =>
          match applyChangeList db₁ rest with
          | Except.error e => Except.error e
          | Except.ok (db₂, cs₂, es₂) =>
            Except.ok (db₂, cs₁ ++ cs₂, es₁ ++ es₂)) = Except.error e
  rw [hc]

theorem applyChangeList_cons_ok_error (db : FakeDatabase) (c : EntityChange)
    (rest : List EntityChange) (d1 : FakeDatabase)
    (c1 : List PasswordStoreChange) (e1 : List Event) (e : ModelError)
    (hc : applyOneChange db c = Except.ok (d1, c1, e1))
    (hr : applyChangeList d1 rest = Except.error e) :
    applyChangeList db (c :: rest) = Except.error e := by
  show (match applyOneChange db c with
        | Except.error e => Except.error e
        | Except.ok (db₁, cs₁, es₁) =>
          match applyChangeList db₁ rest with
          | Except.error e => Except.error e
          | Except.ok (db₂, cs₂, es₂) =>
            Except.ok (db₂, cs₁ ++ cs₂, es₁ ++ es₂)) = Except.error e
  rw [hc]
  show (match applyChangeList d1 rest with
        | Except.error e => Except.error e
        | Except.ok (db₂, cs₂, es₂) =>
          Except.ok (db₂, c1 ++ cs₂, e1 ++ es₂)) = Except.error e
  rw [hr]

theorem applyChangeList_cons_ok_ok (db : FakeDatabase) (c : EntityChange)
    (rest : List EntityChange) (d1 d2 : FakeDatabase)
    (c1 c2 : List PasswordStoreChange) (e1 e2 : List Event)
    (hc : applyOneChange db c = Except.ok (d1, c1, e1))
    (hr : applyChangeList d1 rest = Except.ok (d2, c2, e2)) :
    applyChangeList db (c :: rest) = Except.ok (d2, c1 ++ c2, e1 ++ e2) := by
  show (match applyOneChange db c with
        | Except.error e => Except.error e
        | Except.ok (db₁, cs₁, es₁) =>
          match applyChangeList db₁ rest with
          | Except.error e => Except.error e
          | Except.ok (db₂, cs₂, es₂) =>
            Except.ok (db₂, cs₁ ++ cs₂, es₁ ++ es₂)) = _
  rw [hc]
  show (match applyChangeList d1 rest with
        | Except.error e => Except.error e
        | Except.ok (db₂, cs₂, es₂) =>
          Except.ok (db₂, c1 ++ cs₂, e1 ++ es₂)) = _
  rw [hr]

theorem applyChangeList_cons_inv (db : FakeDatabase) (c : EntityChange)
    (rest : List EntityChange) (db₁ : FakeDatabase)
    (cs₁ : List PasswordStoreChange) (es₁ : List Event)
    (h : applyChangeList db (c :: rest) = Except.ok (db₁, cs₁, es₁)) :
    ∃ d1 c1 e1 c2 e2,
      applyOneChange db c = Except.ok (d1, c1, e1) ∧
      applyChangeList d1 rest = Except.ok (db₁, c2, e2) ∧
      cs₁ = c1 ++ c2 ∧ es₁ = e1 ++ e2 := by
  cases hc : applyOneChange db c with
  | error e =>
    rw [applyChangeList_cons_error db c rest e hc] at h
    exact Except.noConfusion h
  | ok r1 =>
    rcases r1 with ⟨d1, c1, e1⟩
    cases hr : applyChangeList d1 rest with
    | error e =>
      rw [applyChangeList_cons_ok_error db c rest d1 c1 e1 e hc hr] at h
      exact Except.noConfusion h
    | ok r2 =>
      rcases r2 with ⟨d2, c2, e2⟩
      rw [applyChangeList_cons_ok_ok db c rest d1 d2 c1 c2 e1 e2 hc hr] at h
      injection h with h
      have hdb : d2 = db₁ := congrArg Prod.fst h
      have hcs : c1 ++ c2 = cs₁ := congrArg (fun q => q.2.1) h
      have hes : e1 ++ e2 = es₁ := congrArg (fun q => q.2.2) h
      exact ⟨d1, c1, e1, c2, e2, rfl, hdb ▸ hr, hcs.symm, hes.symm⟩

theorem applyChangeList_append_ok_of (ys : List EntityChange)
    (xs : List EntityChange) (db db₁ db₂ : FakeDatabase)
    (cs₁ cs₂ : List PasswordStoreChange) (es₁ es₂ : List Event)
    (h1 : applyChangeList db xs = Except.ok (db₁, cs₁, es₁))
    (h2 : applyChangeList db₁ ys = Except.ok (db₂, cs₂, es₂)) :
    applyChangeList db (xs ++ ys) =
      Except.ok (db₂, cs₁ ++ cs₂, es₁ ++ es₂) := by
  induction xs generalizing db cs₁ es₁ with
  | nil =>
    rw [applyChangeList_nil] at h1
    injection h1 with h1
    have hdb : db = db₁ := congrArg Prod.fst h1
    have hcs : ([] : List PasswordStoreChange) = cs₁ :=
      congrArg (fun q => q.2.1) h1
    have hes : ([] : List Event) = es₁ := congrArg (fun q => q.2.2) h1
    subst hdb
    rw [← hcs, ← hes]
    simpa using h2
  | cons c rest ih =>
    obtain ⟨d1, c1, e1, c2, e2, hc, hr, hcs, hes⟩ :=
      applyChangeList_cons_inv db c rest db₁ cs₁ es₁ h1
    subst hcs
    subst hes
    have hmid := ih d1 c2 e2 hr
    rw [List.cons_append]
    rw [applyChangeList_cons_ok_ok db c (rest ++ ys) d1 db₂ c1 (c2 ++ cs₂) e1
      (e2 ++ es₂) hc hmid]
    simp [List.append_assoc]

theorem applyChangeList_append_error_of (ys : List EntityChange)
    (xs : List EntityChange) (db db₁ : FakeDatabase)
    (cs₁ : List PasswordStoreChange) (es₁ : List Event) (e : ModelError)
    (h1 : applyChangeList db xs = Except.ok (db₁, cs₁, es₁))
    (h2 : applyChangeList db₁ ys = Except.error e) :
    applyChangeList db (xs ++ ys) = Except.error e := by
  induction xs generalizing db cs₁ es₁ with
  | nil =>
    rw [applyChangeList_nil] at h1
    injection h1 with h1
    have hdb : db = db₁ := congrArg Prod.fst h1
    subst hdb
    simpa using h2
  | cons c rest ih =>
    obtain ⟨d1, c1, e1, c2, e2, hc, hr, hcs, hes⟩ :=
      applyChangeList_cons_inv db c rest db₁ cs₁ es₁ h1
    have hmid := ih d1 c2 e2 hr
    rw [List.cons_append]
    exact applyChangeList_cons_ok_error db c (rest ++ ys) d1 c1 e1 e hc hmid

theorem applyOneChange_keysBelow (db : FakeDatabase) (c : EntityChange)
    (db' : FakeDatabase) (cs : List PasswordStoreChange) (es : List Event)
    (hkb : keysBelow db)
    (h : applyOneChange db c = Except.ok (db', cs, es)) : keysBelow db' := by
  cases c with
  | add f =>
    simp only [applyOneChange, FakeDatabase.addLogin, Except.ok.injEq,
      Prod.mk.injEq] at h
    obtain ⟨hdb, -, -⟩ := h
    subst hdb
    intro p hp
    rcases List.mem_append.mp hp with h1 | h1
    · exact Nat.lt_succ_of_lt (hkb p h1)
    · simp only [List.mem_singleton] at h1
      subst h1
      exact Nat.lt_succ_self _
  | update sk f =>
    simp only [applyOneChange] at h
    split at h
    · exact Except.noConfusion h
    · rename_i pk hpk
      split at h
      · exact Except.noConfusion h
      · simp only [Except.ok.injEq, Prod.mk.injEq] at h
        obtain ⟨hdb, -, -⟩ := h
        subst hdb
        intro p hp2
        simp only [FakeDatabase.updateAt] at hp2 ⊢
        obtain ⟨q, hq, hqe⟩ := List.mem_map.mp hp2
        by_cases hqk : q.1 = pk
        · rw [if_pos (beq_iff_eq.mpr hqk)] at hqe
          subst hqe
          show pk < db.nextKey
          rw [← hqk]
          exact hkb q hq
        · rw [if_neg (by simpa using hqk)] at hqe
          subst hqe
          exact hkb q hq
  | delete sk =>
    simp only [applyOneChange] at h
    split at h
    · exact Except.noConfusion h
    · rename_i pk hpk
      split at h
      · exact Except.noConfusion h
      · simp only [Except.ok.injEq, Prod.mk.injEq] at h
        obtain ⟨hdb, -, -⟩ := h
        subst hdb
        intro p hp2
        simp only [FakeDatabase.removeAt] at hp2 ⊢
        exact hkb p (List.mem_of_mem_filter hp2)

theorem applySyncChanges_of_ok (mdStoreId : Nat) (tracking : Bool)
    (db : FakeDatabase) (mds : MetadataStore) (mcl : List MetadataOp)
    (changes : List EntityChange) (db' : FakeDatabase)
    (cs : List PasswordStoreChange) (es : List Event)
    (hne : changes ≠ []) (hcs : cs ≠ [])
    (h : applyChangeList db changes = Except.ok (db', cs, es)) :
    applySyncChanges mdStoreId tracking db mds mcl changes =
      (db', applyMetadataChangeList mds mcl,
       Event.beginTransaction :: es ++ [Event.commitTransaction] ++
         [Event.notifyLoginsChanged cs], none) := by
  have hie : changes.isEmpty = false := by
    cases changes with
    | nil => exact absurd rfl hne
    | cons a l => rfl
  have hcse : cs.isEmpty = false := by
    cases cs with
    | nil => exact absurd rfl hcs
    | cons a l => rfl
  simp [applySyncChanges, hie, h, hcse, actOnPasswordStoreChanges]

theorem applySyncChanges_of_error (mdStoreId : Nat) (tracking : Bool)
    (db : FakeDatabase) (mds : MetadataStore) (mcl : List MetadataOp)
    (changes : List EntityChange) (e : ModelError)
    (hne : changes ≠ [])
    (h : applyChangeList db changes = Except.error e) :
    applySyncChanges mdStoreId tracking db mds mcl changes =
      (db, mds, [Event.beginTransaction], some e) := by
  have hie : changes.isEmpty = false := by
    cases changes with
    | nil => exact absurd rfl hne
    | cons a l => rfl
  simp [applySyncChanges, hie, h]

theorem applyChangeList_keysBelow (cs : List EntityChange) :
    ∀ (db db' : FakeDatabase) (csl : List PasswordStoreChange)
      (es : List Event), keysBelow db →
      applyChangeList db cs = Except.ok (db', csl, es) → keysBelow db' := by
  induction cs with
  | nil =>
    intro db db' csl es hkb h
    rw [applyChangeList_nil] at h
    injection h with h
    have hdb : db = db' := congrArg Prod.fst h
    subst hdb
    exact hkb
  | cons c rest ih =>
    intro db db' csl es hkb h
    obtain ⟨d1, c1, e1, c2, e2, hc, hr, -, -⟩ :=
      applyChangeList_cons_inv db c rest db' csl es h
    exact ih d1 db' c2 e2 (applyOneChange_keysBelow db c d1 c1 e1 hkb hc) hr

theorem keysBelow_lookup_none (db : FakeDatabase) (hkb : keysBelow db) :
    db.lookup db.nextKey = none := by
  have hfind : db.data.find? (fun p => p.1 == db.nextKey) = none := by
    rw [List.find?_eq_none]
    intro p hp hb
    have h1 : p.1 = db.nextKey := eq_of_beq hb
    have h2 := hkb p hp
    omega
  rw [FakeDatabase.lookup, hfind]
  rfl

theorem lookup_addLogin_self (db : FakeDatabase) (f : PasswordForm)
    (hnone : db.lookup db.nextKey = none) :
    (db.addLogin f).1.lookup db.nextKey = some f := by
  have hfind : db.data.find? (fun p => p.1 == db.nextKey) = none := by
    rw [FakeDatabase.lookup] at hnone
    exact Option.map_eq_none'.mp hnone
  show ((db.data ++ [(db.nextKey, f)]).find?
    (fun p => p.1 == db.nextKey)).map (fun p => p.2) = some f
  rw [List.find?_append, hfind]
  simp

theorem applyOneChange_shape (db : FakeDatabase) (c : EntityChange)
    (d1 : FakeDatabase) (c1 : List PasswordStoreChange) (e1 : List Event)
    (h : applyOneChange db c = Except.ok (d1, c1, e1)) :
    ∃ ch, c1 = [ch] ∧ e1.filter isLocalMutation = [changeToEvent ch] ∧
      (∀ ev ∈ e1, isNotifyEvent ev = false ∧ ev ≠ Event.commitTransaction) := by
  cases c with
  | add f =>
    simp only [applyOneChange, FakeDatabase.addLogin, Except.ok.injEq,
      Prod.mk.injEq] at h
    obtain ⟨-, hc1, he1⟩ := h
    refine ⟨⟨ChangeType.ADD, f, db.nextKey⟩, hc1.symm, ?_, ?_⟩
    · rw [← he1]
      rfl
    · intro ev hev
      rw [← he1] at hev
      rcases List.mem_cons.mp hev with h1 | h1
      · subst h1
        exact ⟨rfl, by intro hx; cases hx⟩
      · rcases List.mem_cons.mp h1 with h2 | h2
        · subst h2
          exact ⟨rfl, by intro hx; cases hx⟩
        · cases h2
  | update sk f =>
    simp only [applyOneChange] at h
    split at h
    · exact Except.noConfusion h
    · rename_i pk hpk
      split at h
      · exact Except.noConfusion h
      · simp only [Except.ok.injEq, Prod.mk.injEq] at h
        obtain ⟨-, hc1, he1⟩ := h
        refine ⟨⟨ChangeType.UPDATE, f, pk⟩, hc1.symm, ?_, ?_⟩
        · rw [← he1]
          rfl
        · intro ev hev
          rw [← he1] at hev
          rcases List.mem_cons.mp hev with h1 | h1
          · subst h1
            exact ⟨rfl, by intro hx; cases hx⟩
          · cases h1
  | delete sk =>
    simp only [applyOneChange] at h
    split at h
    · exact Except.noConfusion h
    · rename_i pk hpk
      split at h
      · exact Except.noConfusion h
      · rename_i f0 hf0
        simp only [Except.ok.injEq, Prod.mk.injEq] at h
        obtain ⟨-, hc1, he1⟩ := h
        refine ⟨⟨ChangeType.REMOVE, f0, pk⟩, hc1.symm, ?_, ?_⟩
        · rw [← he1]
          rfl
        · intro ev hev
          rw [← he1] at hev
          rcases List.mem_cons.mp hev with h1 | h1
          · subst h1
            exact ⟨rfl, by intro hx; cases hx⟩
          · cases h1

theorem applyChangeList_shape (cs : List EntityChange) :
    ∀ (db db' : FakeDatabase) (csl : List PasswordStoreChange)
      (es : List Event),
      applyChangeList db cs = Except.ok (db', csl, es) →
      csl.length = cs.length ∧
      es.filter isLocalMutation = csl.map changeToEvent ∧
      (∀ ev ∈ es, isNotifyEvent ev = false ∧ ev ≠ Event.commitTransaction) := by
  induction cs with
  | nil =>
    intro db db' csl es h
    rw [applyChangeList_nil] at h
    injection h with h
    have hcs : ([] : List PasswordStoreChange) = csl :=
      congrArg (fun q => q.2.1) h
    have hes : ([] : List Event) = es := congrArg (fun q => q.2.2) h
    rw [← hcs, ← hes]
    exact ⟨rfl, rfl, by intro ev hev; cases hev⟩
  | cons c rest ih =>
    intro db db' csl es h
    obtain ⟨d1, c1, e1, c2, e2, hc, hr, hcs, hes⟩ :=
      applyChangeList_cons_inv db c rest db' csl es h
    subst hcs
    subst hes
    obtain ⟨ch, hch, hfil, hev⟩ := applyOneChange_shape db c d1 c1 e1 hc
    obtain ⟨hlen2, hfil2, hev2⟩ := ih d1 db' c2 e2 hr
    subst hch
    refine ⟨by simp [hlen2], ?_, ?_⟩
    · rw [List.filter_append, hfil, hfil2]
      simp
    · intro ev hevm
      rcases List.mem_append.mp hevm with h1 | h1
      · exact hev ev h1
      · exact hev2 ev h1

/-- C4 (amended): a remote Create inside an `ApplySyncChanges` batch adds
the record to the local store under the fresh store-assigned primary key
(the auto-increment counter, unused by any resident record), and the
`UpdateStorageKey` call reporting the new key is issued inside the
transaction, immediately after the local Add and before the transaction
commits; the post-commit notification follows the commit and carries the
Add's change record. -/
theorem applySyncChanges_remote_creation (mdStoreId : Nat) (tracking : Bool)
    (db : FakeDatabase) (mds : MetadataStore) (mcl : List MetadataOp)
    (pre post : List EntityChange) (f : PasswordForm)
    (hkb : keysBelow db)
    (db₁ : FakeDatabase) (cs₁ : List PasswordStoreChange) (es₁ : List Event)
    (hpre : applyChangeList db pre = Except.ok (db₁, cs₁, es₁))
    (db₂ : FakeDatabase) (cs₂ : List PasswordStoreChange) (es₂ : List Event)
    (hpost : applyChangeList (db₁.addLogin f).1 post =
      Except.ok (db₂, cs₂, es₂)) :
    db₁.lookup db₁.nextKey = none ∧
    (db₁.addLogin f).1.lookup db₁.nextKey = some f ∧
    applySyncChanges mdStoreId tracking db mds mcl
        (pre ++ EntityChange.add f :: post) =
      (db₂, applyMetadataChangeList mds mcl,
       Event.beginTransaction ::
         (es₁ ++ ([Event.addLoginSync f, Event.updateStorageKey db₁.nextKey] ++
           es₂)) ++ [Event.commitTransaction] ++
         [Event.notifyLoginsChanged
           (cs₁ ++ ⟨ChangeType.ADD, f, db₁.nextKey⟩ :: cs₂)],
       none) := by
  have hkb₁ := applyChangeList_keysBelow pre db db₁ cs₁ es₁ hkb hpre
  have hfresh := keysBelow_lookup_none db₁ hkb₁
  have hadd := lookup_addLogin_self db₁ f hfresh
  refine ⟨hfresh, hadd, ?_⟩
  have honec : applyOneChange db₁ (EntityChange.add f) =
      Except.ok ((db₁.addLogin f).1, [⟨ChangeType.ADD, f, db₁.nextKey⟩],
        [Event.addLoginSync f, Event.updateStorageKey db₁.nextKey]) := rfl
  have hmid := applyChangeList_cons_ok_ok db₁ (EntityChange.add f) post
    (db₁.addLogin f).1 db₂ [⟨ChangeType.ADD, f, db₁.nextKey⟩] cs₂
    [Event.addLoginSync f, Event.updateStorageKey db₁.nextKey] es₂ honec hpost
  have hall := applyChangeList_append_ok_of (EntityChange.add f :: post) pre
    db db₁ db₂ cs₁ (⟨ChangeType.ADD, f, db₁.nextKey⟩ :: cs₂) es₁
    ([Event.addLoginSync f, Event.updateStorageKey db₁.nextKey] ++ es₂)
    hpre hmid
  rw [applySyncChanges_of_ok mdStoreId tracking db mds mcl
    (pre ++ EntityChange.add f :: post) db₂
    (cs₁ ++ ⟨ChangeType.ADD, f, db₁.nextKey⟩ :: cs₂)
    (es₁ ++ ([Event.addLoginSync f, Event.updateStorageKey db₁.nextKey] ++
      es₂)) (by simp) (by simp) hall]

/-- Witness for C4's amended theorem: the scenario of
`ShouldApplyRemoteCreation` — empty store, one remote Create with realm
"abc": the record lands under the fresh key 1, and the trace is exactly
Begin, AddLoginSync, UpdateStorageKey(1), Commit, Notify. -/
theorem applySyncChanges_remote_creation_witness :
    FakeDatabase.empty.lookup 1 = none ∧
    (FakeDatabase.empty.addLogin (makePasswordForm "abc")).1.lookup 1 =
      some (makePasswordForm "abc") ∧
    applySyncChanges 0 true FakeDatabase.empty [] []
        [EntityChange.add (makePasswordForm "abc")] =
      ((FakeDatabase.empty.addLogin (makePasswordForm "abc")).1, [],
       Event.beginTransaction ::
         ([] ++ ([Event.addLoginSync (makePasswordForm "abc"),
           Event.updateStorageKey 1] ++ [])) ++ [Event.commitTransaction] ++
         [Event.notifyLoginsChanged
           ([] ++ ⟨ChangeType.ADD, makePasswordForm "abc", 1⟩ :: [])],
       none) :=
  applySyncChanges_remote_creation 0 true FakeDatabase.empty [] [] [] []
    (makePasswordForm "abc") (by intro p hp; cases hp)
    FakeDatabase.empty [] [] rfl
    (FakeDatabase.empty.addLogin (makePasswordForm "abc")).1 [] [] rfl

/-- C8: an `ApplySyncChanges` invocation whose change list contains a
remote Update or Delete whose storage key decodes to a primary key with no
resident record at the point it is processed (all earlier changes having
succeeded) returns the `NotFound` error and performs zero local-store
mutations: the record store and the metadata store are returned unchanged
and the transaction is rolled back with no commit and no notification. -/
theorem applySyncChanges_not_found (mdStoreId : Nat) (tracking : Bool)
    (db : FakeDatabase) (mds : MetadataStore) (mcl : List MetadataOp)
    (pre post : List EntityChange) (c : EntityChange) (sk : String) (pk : Nat)
    (db₁ : FakeDatabase) (cs₁ : List PasswordStoreChange) (es₁ : List Event)
    (hpre : applyChangeList db pre = Except.ok (db₁, cs₁, es₁))
    (hc : (∃ f, c = EntityChange.update sk f) ∨ c = EntityChange.delete sk)
    (hparse : parsePrimaryKey sk = some pk)
    (hmiss : db₁.lookup pk = none) :
    applySyncChanges mdStoreId tracking db mds mcl (pre ++ c :: post) =
      (db, mds, [Event.beginTransaction], some ModelError.notFound) := by
  have honec : applyOneChange db₁ c = Except.error ModelError.notFound := by
    rcases hc with ⟨f, hcu⟩ | hcd
    · subst hcu
      show (match parsePrimaryKey sk with
            | none => Except.error ModelError.malformedKey
            | some pk =>
              match db₁.lookup pk with
              | none => Except.error ModelError.notFound
              | some _ =>
                Except.ok (db₁.updateAt pk f,
                  [PasswordStoreChange.mk ChangeType.UPDATE f pk],
                  [Event.updateLoginSync f])) =
        Except.error ModelError.notFound
      rw [hparse]
      show (match db₁.lookup pk with
            | none => Except.error ModelError.notFound
            | some _ =>
              Except.ok (db₁.updateAt pk f,
                [PasswordStoreChange.mk ChangeType.UPDATE f pk],
                [Event.updateLoginSync f])) =
        Except.error ModelError.notFound
      rw [hmiss]
    · subst hcd
      show (match parsePrimaryKey sk with
            | none => Except.error ModelError.malformedKey
            | some pk =>
              match db₁.lookup pk with
              | none => Except.error ModelError.notFound
              | some f =>
                Except.ok (db₁.removeAt pk,
                  [PasswordStoreChange.mk ChangeType.REMOVE f pk],
                  [Event.removeLoginSync pk])) =
        Except.error ModelError.notFound
      rw [hparse]
      show (match db₁.lookup pk with
            | none => Except.error ModelError.notFound
            | some f =>
              Except.ok (db₁.removeAt pk,
                [PasswordStoreChange.mk ChangeType.REMOVE f pk],
                [Event.removeLoginSync pk])) =
        Except.error ModelError.notFound
      rw [hmiss]
  have hmid := applyChangeList_cons_error db₁ c post ModelError.notFound honec
  have hall := applyChangeList_append_error_of (c :: post) pre db db₁ cs₁ es₁
    ModelError.notFound hpre hmid
  exact applySyncChanges_of_error mdStoreId tracking db mds mcl
    (pre ++ c :: post) ModelError.notFound (by simp) hall

/-- Witness for C8: the spec's scenario — empty local store, one remote
Update for storage key "1000": `NotFound` is returned, the store and the
metadata store are unchanged, and no commit or notification happens. -/
theorem applySyncChanges_not_found_witness :
    applySyncChanges 0 true FakeDatabase.empty [] []
        ([] ++ EntityChange.update "1000" (makePasswordForm "abc") :: []) =
      (FakeDatabase.empty, [], [Event.beginTransaction],
       some ModelError.notFound) :=
  applySyncChanges_not_found 0 true FakeDatabase.empty [] [] [] []
    (EntityChange.update "1000" (makePasswordForm "abc")) "1000" 1000
    FakeDatabase.empty [] [] rfl
    (Or.inl ⟨makePasswordForm "abc", rfl⟩) (by decide) rfl

theorem mergeOneRemote_matched (index : List (String × Nat))
    (db : FakeDatabase) (r : PasswordForm) (pk : Nat)
    (hm : lookupTag index (getClientTag r) = some pk) :
    mergeOneRemote index db r =
      (db.updateAt pk r, [⟨ChangeType.UPDATE, r, pk⟩],
       [Event.updateLoginSync r, Event.updateStorageKey pk]) := by
  show (match lookupTag index (getClientTag r) with
        | some pk =>
          (db.updateAt pk r, [PasswordStoreChange.mk ChangeType.UPDATE r pk],
           [Event.updateLoginSync r, Event.updateStorageKey pk])
        | none =>
          ((db.addLogin r).1,
           [PasswordStoreChange.mk ChangeType.ADD r db.nextKey],
           [Event.addLoginSync r, Event.updateStorageKey db.nextKey])) = _
  rw [hm]

theorem mergeOneRemote_unmatched (index : List (String × Nat))
    (db : FakeDatabase) (r : PasswordForm)
    (hm : lookupTag index (getClientTag r) = none) :
    mergeOneRemote index db r =
      ((db.addLogin r).1, [⟨ChangeType.ADD, r, db.nextKey⟩],
       [Event.addLoginSync r, Event.updateStorageKey db.nextKey]) := by
  show (match lookupTag index (getClientTag r) with
        | some pk =>
          (db.updateAt pk r, [PasswordStoreChange.mk ChangeType.UPDATE r pk],
           [Event.updateLoginSync r, Event.updateStorageKey pk])
        | none =>
          ((db.addLogin r).1,
           [PasswordStoreChange.mk ChangeType.ADD r db.nextKey],
           [Event.addLoginSync r, Event.updateStorageKey db.nextKey])) = _
  rw [hm]

theorem mergeChangeSpec_matched (index : List (String × Nat)) (k : Nat)
    (r : PasswordForm) (rest : List PasswordForm) (pk : Nat)
    (hm : lookupTag index (getClientTag r) = some pk) :
    mergeChangeSpec index k (r :: rest) =
      ⟨ChangeType.UPDATE, r, pk⟩ :: mergeChangeSpec index k rest := by
  show (match lookupTag index (getClientTag r) with
        | some pk =>
          PasswordStoreChange.mk ChangeType.UPDATE r pk ::
            mergeChangeSpec index k rest
        | none =>
          PasswordStoreChange.mk ChangeType.ADD r k ::
            mergeChangeSpec index (k + 1) rest) = _
  rw [hm]

theorem mergeChangeSpec_unmatched (index : List (String × Nat)) (k : Nat)
    (r : PasswordForm) (rest : List PasswordForm)
    (hm : lookupTag index (getClientTag r) = none) :
    mergeChangeSpec index k (r :: rest) =
      ⟨ChangeType.ADD, r, k⟩ :: mergeChangeSpec index (k + 1) rest := by
  show (match lookupTag index (getClientTag r) with
        | some pk =>
          PasswordStoreChange.mk ChangeType.UPDATE r pk ::
            mergeChangeSpec index k rest
        | none =>
          PasswordStoreChange.mk ChangeType.ADD r k ::
            mergeChangeSpec index (k + 1) rest) = _
  rw [hm]

theorem mergeEventSpec_matched (index : List (String × Nat)) (k : Nat)
    (r : PasswordForm) (rest : List PasswordForm) (pk : Nat)
    (hm : lookupTag index (getClientTag r) = some pk) :
    mergeEventSpec index k (r :: rest) =
      Event.updateLoginSync r :: Event.updateStorageKey pk ::
        mergeEventSpec index k rest := by
  show (match lookupTag index (getClientTag r) with
        | some pk =>
          Event.updateLoginSync r :: Event.updateStorageKey pk ::
            mergeEventSpec index k rest
        | none =>
          Event.addLoginSync r :: Event.updateStorageKey k ::
            mergeEventSpec index (k + 1) rest) = _
  rw [hm]

theorem mergeEventSpec_unmatched (index : List (String × Nat)) (k : Nat)
    (r : PasswordForm) (rest : List PasswordForm)
    (hm : lookupTag index (getClientTag r) = none) :
    mergeEventSpec index k (r :: rest) =
      Event.addLoginSync r :: Event.updateStorageKey k ::
        mergeEventSpec index (k + 1) rest := by
  show (match lookupTag index (getClientTag r) with
        | some pk =>
          Event.updateLoginSync r :: Event.updateStorageKey pk ::
            mergeEventSpec index k rest
        | none =>
          Event.addLoginSync r :: Event.updateStorageKey k ::
            mergeEventSpec index (k + 1) rest) = _
  rw [hm]

theorem countUnmatched_matched (index : List (String × Nat))
    (r : PasswordForm) (rest : List PasswordForm) (pk : Nat)
    (hm : lookupTag index (getClientTag r) = some pk) :
    countUnmatched index (r :: rest) = countUnmatched index rest := by
  simp [countUnmatched, List.countP_cons, hm]

theorem countUnmatched_unmatched (index : List (String × Nat))
    (r : PasswordForm) (rest : List PasswordForm)
    (hm : lookupTag index (getClientTag r) = none) :
    countUnmatched index (r :: rest) = countUnmatched index rest + 1 := by
  simp [countUnmatched, List.countP_cons, hm]

theorem countUnmatched_le_length (index : List (String × Nat))
    (rs : List PasswordForm) : countUnmatched index rs ≤ rs.length :=
  List.countP_le_length _

theorem mergeRemotes_spec (index : List (String × Nat))
    (rs : List PasswordForm) :
    ∀ db : FakeDatabase,
      (mergeRemotes index db rs).2.1 = mergeChangeSpec index db.nextKey rs ∧
      (mergeRemotes index db rs).2.2 = mergeEventSpec index db.nextKey rs ∧
      (mergeRemotes index db rs).1.nextKey =
        db.nextKey + countUnmatched index rs := by
  induction rs with
  | nil =>
    intro db
    refine ⟨rfl, rfl, ?_⟩
    simp [mergeRemotes, countUnmatched]
  | cons r rest ih =>
    intro db
    have hcs : (mergeRemotes index db (r :: rest)).2.1 =
        (mergeOneRemote index db r).2.1 ++
          (mergeRemotes index (mergeOneRemote index db r).1 rest).2.1 := rfl
    have hes : (mergeRemotes index db (r :: rest)).2.2 =
        (mergeOneRemote index db r).2.2 ++
          (mergeRemotes index (mergeOneRemote index db r).1 rest).2.2 := rfl
    have hdb : (mergeRemotes index db (r :: rest)).1 =
        (mergeRemotes index (mergeOneRemote index db r).1 rest).1 := rfl
    cases hm : lookupTag index (getClientTag r) with
    | some pk =>
      obtain ⟨ihc, ihe, ihn⟩ := ih (db.updateAt pk r)
      have hone := mergeOneRemote_matched index db r pk hm
      refine ⟨?_, ?_, ?_⟩
      · rw [hcs, hone, mergeChangeSpec_matched index db.nextKey r rest pk hm]
        simp only []
        rw [ihc]
        rfl
      · rw [hes, hone, mergeEventSpec_matched index db.nextKey r rest pk hm]
        simp only []
        rw [ihe]
        rfl
      · rw [hdb, hone]
        simp only []
        rw [ihn, countUnmatched_matched index r rest pk hm]
        rfl
    | none =>
      obtain ⟨ihc, ihe, ihn⟩ := ih (db.addLogin r).1
      have hone := mergeOneRemote_unmatched index db r hm
      refine ⟨?_, ?_, ?_⟩
      · rw [hcs, hone, mergeChangeSpec_unmatched index db.nextKey r rest hm]
        simp only []
        rw [ihc]
        rfl
      · rw [hes, hone, mergeEventSpec_unmatched index db.nextKey r rest hm]
        simp only []
        rw [ihe]
        rfl
      · rw [hdb, hone]
        simp only []
        rw [ihn, countUnmatched_unmatched index r rest hm]
        show db.nextKey + 1 + countUnmatched index rest = _
        omega

theorem mergeChangeSpec_length (index : List (String × Nat))
    (rs : List PasswordForm) :
    ∀ k, (mergeChangeSpec index k rs).length = rs.length := by
  induction rs with
  | nil => intro k; rfl
  | cons r rest ih =>
    intro k
    cases hm : lookupTag index (getClientTag r) with
    | some pk =>
      rw [mergeChangeSpec_matched index k r rest pk hm]
      simp [ih k]
    | none =>
      rw [mergeChangeSpec_unmatched index k r rest hm]
      simp [ih (k + 1)]

theorem mergeEventSpec_count_updSK (index : List (String × Nat)) (p : Nat)
    (rs : List PasswordForm) :
    ∀ k, (mergeEventSpec index k rs).count (Event.updateStorageKey p) =
      rs.countP (fun r => lookupTag index (getClientTag r) == some p) +
      (if k ≤ p ∧ p < k + countUnmatched index rs then 1 else 0) := by
  induction rs with
  | nil =>
    intro k
    have h0 : countUnmatched index ([] : List PasswordForm) = 0 := rfl
    rw [h0, if_neg (by omega)]
    rfl
  | cons r rest ih =>
    intro k
    cases hm : lookupTag index (getClientTag r) with
    | some pk =>
      rw [mergeEventSpec_matched index k r rest pk hm,
        countUnmatched_matched index r rest pk hm]
      rw [List.count_eq_countP,
        List.countP_cons_of_neg _ _ (by simp),
        ← List.count_eq_countP]
      by_cases hpk : pk = p
      · subst hpk
        rw [List.count_eq_countP, List.countP_cons_of_pos _ _ (by simp),
          ← List.count_eq_countP, ih k,
          List.countP_cons_of_pos _ _ (by simp [hm])]
        omega
      · rw [List.count_eq_countP, List.countP_cons_of_neg _ _ (by simp [hpk]),
          ← List.count_eq_countP, ih k,
          List.countP_cons_of_neg _ _ (by simp [hm, hpk])]
    | none =>
      rw [mergeEventSpec_unmatched index k r rest hm,
        countUnmatched_unmatched index r rest hm]
      rw [List.count_eq_countP,
        List.countP_cons_of_neg _ _ (by simp),
        ← List.count_eq_countP,
        List.countP_cons_of_neg _ _ (by simp [hm])]
      by_cases hkp : k = p
      · subst hkp
        rw [List.count_eq_countP, List.countP_cons_of_pos _ _ (by simp),
          ← List.count_eq_countP, ih (k + 1)]
        rw [if_neg (by omega), if_pos (by
          have := countUnmatched_le_length index rest
          omega)]
      · rw [List.count_eq_countP, List.countP_cons_of_neg _ _ (by simp [hkp]),
          ← List.count_eq_countP, ih (k + 1)]
        by_cases hr : k + 1 ≤ p ∧ p < k + 1 + countUnmatched index rest
        · rw [if_pos hr, if_pos (by omega)]
        · rw [if_neg hr, if_neg (by omega)]

theorem mergeEventSpec_count_add (index : List (String × Nat))
    (f : PasswordForm) (rs : List PasswordForm) :
    ∀ k, (mergeEventSpec index k rs).count (Event.addLoginSync f) =
      rs.countP (fun r =>
        (lookupTag index (getClientTag r)).isNone && r == f) := by
  induction rs with
  | nil => intro k; rfl
  | cons r rest ih =>
    intro k
    cases hm : lookupTag index (getClientTag r) with
    | some pk =>
      rw [mergeEventSpec_matched index k r rest pk hm]
      rw [List.count_eq_countP, List.countP_cons_of_neg _ _ (by simp),
        List.countP_cons_of_neg _ _ (by simp),
        ← List.count_eq_countP, ih k,
        List.countP_cons_of_neg _ _ (by simp [hm])]
    | none =>
      rw [mergeEventSpec_unmatched index k r rest hm]
      by_cases hrf : r = f
      · subst hrf
        rw [List.count_eq_countP, List.countP_cons_of_pos _ _ (by simp),
          List.countP_cons_of_neg _ _ (by simp),
          ← List.count_eq_countP, ih (k + 1),
          List.countP_cons_of_pos _ _ (by simp [hm])]
      · rw [List.count_eq_countP, List.countP_cons_of_neg _ _ (by simp [hrf]),
          List.countP_cons_of_neg _ _ (by simp),
          ← List.count_eq_countP, ih (k + 1),
          List.countP_cons_of_neg _ _ (by simp [hm, hrf])]

theorem mergeEventSpec_count_upd (index : List (String × Nat))
    (f : PasswordForm) (rs : List PasswordForm) :
    ∀ k, (mergeEventSpec index k rs).count (Event.updateLoginSync f) =
      rs.countP (fun r =>
        (lookupTag index (getClientTag r)).isSome && r == f) := by
  induction rs with
  | nil => intro k; rfl
  | cons r rest ih =>
    intro k
    cases hm : lookupTag index (getClientTag r) with
    | some pk =>
      rw [mergeEventSpec_matched index k r rest pk hm]
      by_cases hrf : r = f
      · subst hrf
        rw [List.count_eq_countP, List.countP_cons_of_pos _ _ (by simp),
          List.countP_cons_of_neg _ _ (by simp),
          ← List.count_eq_countP, ih k,
          List.countP_cons_of_pos _ _ (by simp [hm])]
      · rw [List.count_eq_countP, List.countP_cons_of_neg _ _ (by simp [hrf]),
          List.countP_cons_of_neg _ _ (by simp),
          ← List.count_eq_countP, ih k,
          List.countP_cons_of_neg _ _ (by simp [hm, hrf])]
    | none =>
      rw [mergeEventSpec_unmatched index k r rest hm]
      rw [List.count_eq_countP, List.countP_cons_of_neg _ _ (by simp),
        List.countP_cons_of_neg _ _ (by simp),
        ← List.count_eq_countP, ih (k + 1),
        List.countP_cons_of_neg _ _ (by simp [hm])]

theorem mergeEventSpec_mem (index : List (String × Nat))
    (rs : List PasswordForm) :
    ∀ k e, e ∈ mergeEventSpec index k rs →
      (∃ r, e = Event.addLoginSync r) ∨ (∃ r, e = Event.updateLoginSync r) ∨
      (∃ q, e = Event.updateStorageKey q) := by
  induction rs with
  | nil => intro k e he; cases he
  | cons r rest ih =>
    intro k e he
    cases hm : lookupTag index (getClientTag r) with
    | some pk =>
      rw [mergeEventSpec_matched index k r rest pk hm] at he
      rcases List.mem_cons.mp he with h1 | h1
      · exact Or.inr (Or.inl ⟨r, h1⟩)
      · rcases List.mem_cons.mp h1 with h2 | h2
        · exact Or.inr (Or.inr ⟨pk, h2⟩)
        · exact ih k e h2
    | none =>
      rw [mergeEventSpec_unmatched index k r rest hm] at he
      rcases List.mem_cons.mp he with h1 | h1
      · exact Or.inl ⟨r, h1⟩
      · rcases List.mem_cons.mp h1 with h2 | h2
        · exact Or.inr (Or.inr ⟨k, h2⟩)
        · exact ih (k + 1) e h2

theorem mergeEventSpec_filter (index : List (String × Nat))
    (rs : List PasswordForm) :
    ∀ k, (mergeEventSpec index k rs).filter isLocalMutation =
      (mergeChangeSpec index k rs).map changeToEvent := by
  induction rs with
  | nil => intro k; rfl
  | cons r rest ih =>
    intro k
    cases hm : lookupTag index (getClientTag r) with
    | some pk =>
      rw [mergeEventSpec_matched index k r rest pk hm,
        mergeChangeSpec_matched index k r rest pk hm]
      show Event.updateLoginSync r ::
          (mergeEventSpec index k rest).filter isLocalMutation = _
      rw [ih k]
      rfl
    | none =>
      rw [mergeEventSpec_unmatched index k r rest hm,
        mergeChangeSpec_unmatched index k r rest hm]
      show Event.addLoginSync r ::
          (mergeEventSpec index (k + 1) rest).filter isLocalMutation = _
      rw [ih (k + 1)]
      rfl

theorem localOnlyPuts_mem (mdStoreId : Nat)
    (snapshot : List (Nat × PasswordForm)) (remoteTags : List String)
    (e : Event) (he : e ∈ localOnlyPuts mdStoreId snapshot remoteTags) :
    ∃ q ∈ snapshot, e = Event.put q.1 q.2 mdStoreId ∧
      remoteTags.contains (getClientTag q.2) = false := by
  simp only [localOnlyPuts, List.mem_filterMap] at he
  obtain ⟨q, hq, hqe⟩ := he
  by_cases hc : remoteTags.contains (getClientTag q.2)
  · rw [if_pos hc] at hqe
    exact Option.noConfusion hqe
  · rw [if_neg hc] at hqe
    injection hqe with hqe
    exact ⟨q, hq, hqe.symm, by simpa using hc⟩

theorem localOnlyPuts_step (mdStoreId : Nat) (q : Nat × PasswordForm)
    (rest : List (Nat × PasswordForm)) (remoteTags : List String) :
    localOnlyPuts mdStoreId (q :: rest) remoteTags =
      (if remoteTags.contains (getClientTag q.2) then []
       else [Event.put q.1 q.2 mdStoreId]) ++
        localOnlyPuts mdStoreId rest remoteTags := by
  by_cases hc : remoteTags.contains (getClientTag q.2)
  · simp only [localOnlyPuts, List.filterMap_cons, if_pos hc]
    rfl
  · simp only [localOnlyPuts, List.filterMap_cons, if_neg hc]
    rfl

theorem localOnlyPuts_count (mdStoreId : Nat)
    (snapshot : List (Nat × PasswordForm)) (remoteTags : List String)
    (pk : Nat) (f : PasswordForm) :
    (localOnlyPuts mdStoreId snapshot remoteTags).count
        (Event.put pk f mdStoreId) =
      snapshot.countP (fun q => q.1 == pk && q.2 == f &&
        !(remoteTags.contains (getClientTag q.2))) := by
  induction snapshot with
  | nil => rfl
  | cons q rest ih =>
    rw [localOnlyPuts_step, List.count_append, ih, List.countP_cons]
    by_cases hc : remoteTags.contains (getClientTag q.2)
    · rw [if_pos hc]
      have hp : (q.1 == pk && q.2 == f &&
          !(remoteTags.contains (getClientTag q.2))) = false := by
        rw [hc]
        simp
      rw [hp]
      simp
    · rw [if_neg hc, List.count_singleton]
      have hc2 : remoteTags.contains (getClientTag q.2) = false := by
        cases hx : remoteTags.contains (getClientTag q.2)
        · rfl
        · exact absurd hx hc
      have hcf : (!(remoteTags.contains (getClientTag q.2))) = true := by
        rw [hc2]
        rfl
      by_cases hqf : q.1 = pk ∧ q.2 = f
      · obtain ⟨h1, h2⟩ := hqf
        have he : (Event.put q.1 q.2 mdStoreId == Event.put pk f mdStoreId) =
            true := by simp [h1, h2]
        have hp : (q.1 == pk && q.2 == f &&
            !(remoteTags.contains (getClientTag q.2))) = true := by
          rw [hcf]
          simp [h1, h2]
        rw [he, hp]
        simp [Nat.add_comm]
      · have he : (Event.put q.1 q.2 mdStoreId == Event.put pk f mdStoreId) =
            false := by
          simp only [beq_eq_false_iff_ne, ne_eq, Event.put.injEq]
          intro hx
          exact hqf ⟨hx.1, hx.2.1⟩
        have hp : (q.1 == pk && q.2 == f &&
            !(remoteTags.contains (getClientTag q.2))) = false := by
          rcases Decidable.not_and_iff_or_not.mp hqf with h1 | h1 <;>
            simp [h1]
        rw [he, hp]
        simp

theorem localOnlyPuts_countP_key (mdStoreId : Nat)
    (snapshot : List (Nat × PasswordForm)) (remoteTags : List String)
    (pk : Nat) :
    (localOnlyPuts mdStoreId snapshot remoteTags).countP (isPutFor pk) =
      snapshot.countP (fun q => q.1 == pk &&
        !(remoteTags.contains (getClientTag q.2))) := by
  induction snapshot with
  | nil => rfl
  | cons q rest ih =>
    rw [localOnlyPuts_step, List.countP_append, ih, List.countP_cons]
    by_cases hc : remoteTags.contains (getClientTag q.2)
    · rw [if_pos hc]
      have hp : (q.1 == pk &&
          !(remoteTags.contains (getClientTag q.2))) = false := by
        rw [hc]
        simp
      rw [hp]
      simp
    · rw [if_neg hc, List.countP_singleton]
      have hc2 : remoteTags.contains (getClientTag q.2) = false := by
        cases hx : remoteTags.contains (getClientTag q.2)
        · rfl
        · exact absurd hx hc
      have hcf : (!(remoteTags.contains (getClientTag q.2))) = true := by
        rw [hc2]
        rfl
      by_cases hq1 : q.1 = pk
      · have he : isPutFor pk (Event.put q.1 q.2 mdStoreId) = true := by
          simp [isPutFor, hq1]
        have hp : (q.1 == pk &&
            !(remoteTags.contains (getClientTag q.2))) = true := by
          rw [hcf]
          simp [hq1]
        rw [he, hp]
        simp [Nat.add_comm]
      · have he : isPutFor pk (Event.put q.1 q.2 mdStoreId) = false := by
          simp [isPutFor, hq1]
        have hp : (q.1 == pk &&
            !(remoteTags.contains (getClientTag q.2))) = false := by
          simp [hq1]
        rw [he, hp]
        simp

theorem find?_map_update (l : List (Nat × PasswordForm)) (pk p : Nat)
    (f : PasswordForm) (hne : pk ≠ p) :
    (l.map (fun q => if q.1 == pk then (pk, f) else q)).find?
        (fun q => q.1 == p) =
      l.find? (fun q => q.1 == p) := by
  induction l with
  | nil => rfl
  | cons q rest ih =>
    rw [List.map_cons]
    by_cases h1 : q.1 = pk
    · rw [if_pos (by simp [h1])]
      rw [List.find?_cons_of_neg _ (by simp only [beq_iff_eq]; exact hne),
        List.find?_cons_of_neg _ (by
          simp only [beq_iff_eq, h1]
          exact hne), ih]
    · rw [if_neg (by simp [h1])]
      by_cases h2 : q.1 = p
      · rw [List.find?_cons_of_pos _ (by simp [h2]),
          List.find?_cons_of_pos _ (by simp [h2])]
      · rw [List.find?_cons_of_neg _ (by simp [h2]),
          List.find?_cons_of_neg _ (by simp [h2]), ih]

theorem lookup_updateAt_ne (db : FakeDatabase) (pk p : Nat)
    (f : PasswordForm) (hne : pk ≠ p) :
    (db.updateAt pk f).lookup p = db.lookup p := by
  show ((db.data.map (fun q => if q.1 == pk then (pk, f) else q)).find?
    (fun q => q.1 == p)).map (fun q => q.2) = _
  rw [find?_map_update db.data pk p f hne]
  rfl

theorem find?_map_update_self (l : List (Nat × PasswordForm)) (pk : Nat)
    (f : PasswordForm) (h : ∃ q, l.find? (fun q => q.1 == pk) = some q) :
    (l.map (fun q => if q.1 == pk then (pk, f) else q)).find?
        (fun q => q.1 == pk) = some (pk, f) := by
  induction l with
  | nil =>
    obtain ⟨q, hq⟩ := h
    exact Option.noConfusion hq
  | cons q rest ih =>
    rw [List.map_cons]
    by_cases h1 : q.1 = pk
    · rw [if_pos (by simp [h1]), List.find?_cons_of_pos _ (by simp)]
    · rw [if_neg (by simp [h1]), List.find?_cons_of_neg _ (by simp [h1])]
      apply ih
      obtain ⟨q0, hq0⟩ := h
      rw [List.find?_cons_of_neg _ (by simp [h1])] at hq0
      exact ⟨q0, hq0⟩

theorem lookup_updateAt_self (db : FakeDatabase) (pk : Nat)
    (f g : PasswordForm) (hres : db.lookup pk = some g) :
    (db.updateAt pk f).lookup pk = some f := by
  have hfind : ∃ q, db.data.find? (fun q => q.1 == pk) = some q := by
    cases hx : db.data.find? (fun q => q.1 == pk) with
    | none =>
      rw [FakeDatabase.lookup, hx] at hres
      exact Option.noConfusion hres
    | some q => exact ⟨q, rfl⟩
  show ((db.data.map (fun q => if q.1 == pk then (pk, f) else q)).find?
    (fun q => q.1 == pk)).map (fun q => q.2) = some f
  rw [find?_map_update_self db.data pk f hfind]
  rfl

theorem lookup_updateAt_none (db : FakeDatabase) (pk p : Nat)
    (f : PasswordForm) (hnone : db.lookup p = none) :
    (db.updateAt pk f).lookup p = none := by
  by_cases h : pk = p
  · subst h
    have hfind : db.data.find? (fun q => q.1 == pk) = none :=
      Option.map_eq_none'.mp hnone
    rw [List.find?_eq_none] at hfind
    show ((db.data.map (fun q => if q.1 == pk then (pk, f) else q)).find?
      (fun q => q.1 == pk)).map (fun q => q.2) = none
    have hf2 : (db.data.map (fun q => if q.1 == pk then (pk, f) else q)).find?
        (fun q => q.1 == pk) = none := by
      rw [List.find?_eq_none]
      intro x hx
      obtain ⟨q, hq, hqe⟩ := List.mem_map.mp hx
      by_cases h1 : q.1 = pk
      · exact absurd (by simp [h1] : (fun q => q.1 == pk) q = true)
          (hfind q hq)
      · rw [if_neg (by simp [h1])] at hqe
        subst hqe
        simp [h1]
    rw [hf2]
    rfl
  · rw [lookup_updateAt_ne db pk p f h]
    exact hnone

theorem lookup_append_ne (db : FakeDatabase) (f : PasswordForm) (p : Nat)
    (hne : p ≠ db.nextKey) :
    (db.addLogin f).1.lookup p = db.lookup p := by
  show ((db.data ++ [(db.nextKey, f)]).find? (fun q => q.1 == p)).map
    (fun q => q.2) = _
  rw [List.find?_append]
  have h2 : ([(db.nextKey, f)].find? (fun q => q.1 == p)) = none := by
    rw [List.find?_cons_of_neg _ (by simp [Ne.symm hne])]
    rfl
  rw [h2]
  cases hx : db.data.find? (fun q => q.1 == p) with
  | none =>
    rw [FakeDatabase.lookup, hx]
    rfl
  | some v =>
    rw [FakeDatabase.lookup, hx]
    rfl

theorem find?_key_of_mem_nodup (l : List (Nat × PasswordForm)) (pk : Nat)
    (f : PasswordForm) (hmem : (pk, f) ∈ l)
    (hnd : (l.map Prod.fst).Nodup) :
    l.find? (fun q => q.1 == pk) = some (pk, f) := by
  induction l with
  | nil => cases hmem
  | cons q rest ih =>
    simp only [List.map_cons, List.nodup_cons] at hnd
    rcases List.mem_cons.mp hmem with h1 | h1
    · subst h1
      rw [List.find?_cons_of_pos _ (by simp)]
    · have hq1 : q.1 ≠ pk := by
        intro hx
        apply hnd.1
        rw [hx]
        exact List.mem_map_of_mem Prod.fst h1
      rw [List.find?_cons_of_neg _ (by simp [hq1])]
      exact ih h1 hnd.2

theorem lookup_of_mem_nodup (db : FakeDatabase) (pk : Nat) (f : PasswordForm)
    (hmem : (pk, f) ∈ db.data) (hnd : (db.data.map Prod.fst).Nodup) :
    db.lookup pk = some f := by
  show (db.data.find? (fun q => q.1 == pk)).map (fun q => q.2) = some f
  rw [find?_key_of_mem_nodup db.data pk f hmem hnd]
  rfl

theorem lookupTag_localIndex (db : FakeDatabase) (t : String) (pk : Nat)
    (h : lookupTag (localIndex db) t = some pk) :
    ∃ f, (pk, f) ∈ db.data ∧ getClientTag f = t := by
  simp only [lookupTag] at h
  cases hx : (localIndex db).find? (fun p => p.1 == t) with
  | none => rw [hx] at h; exact Option.noConfusion h
  | some e =>
    rw [hx] at h
    injection h with h
    have hmem : e ∈ localIndex db := List.mem_of_find?_eq_some hx
    have hprop : e.1 = t := by
      have h2 := List.find?_some hx
      exact eq_of_beq h2
    simp only [localIndex, List.mem_map] at hmem
    obtain ⟨q, hq, hqe⟩ := hmem
    refine ⟨q.2, ?_, ?_⟩
    · have hq1 : q.1 = pk := by rw [← h, ← hqe]
      rw [← hq1]
      exact hq
    · rw [← hprop, ← hqe]

theorem localIndex_value_unique (db : FakeDatabase) (pk : Nat)
    (hnd : (db.data.map Prod.fst).Nodup) (t t' : String)
    (h : lookupTag (localIndex db) t = some pk)
    (h' : lookupTag (localIndex db) t' = some pk) : t = t' := by
  obtain ⟨f, hf, hft⟩ := lookupTag_localIndex db t pk h
  obtain ⟨g, hg, hgt⟩ := lookupTag_localIndex db t' pk h'
  have hfg : f = g := by
    have h1 := lookup_of_mem_nodup db pk f hf hnd
    have h2 := lookup_of_mem_nodup db pk g hg hnd
    rw [h1] at h2
    exact Option.some.inj h2
  rw [← hft, ← hgt]
  exact congrArg getClientTag hfg

theorem mergeRemotes_state_append (index : List (String × Nat))
    (xs ys : List PasswordForm) :
    ∀ db : FakeDatabase,
      (mergeRemotes index db (xs ++ ys)).1 =
        (mergeRemotes index (mergeRemotes index db xs).1 ys).1 := by
  induction xs with
  | nil => intro db; rfl
  | cons x rest ih =>
    intro db
    show (mergeRemotes index (mergeOneRemote index db x).1 (rest ++ ys)).1 = _
    rw [ih (mergeOneRemote index db x).1]
    rfl

theorem mergeRemotes_lookup_preserved (index : List (String × Nat))
    (rs : List PasswordForm) :
    ∀ (db : FakeDatabase) (p : Nat),
      (∀ r ∈ rs, lookupTag index (getClientTag r) ≠ some p) →
      (p < db.nextKey ∨ db.nextKey + rs.length ≤ p) →
      (mergeRemotes index db rs).1.lookup p = db.lookup p := by
  induction rs with
  | nil => intro db p _ _; rfl
  | cons r rest ih =>
    intro db p hno hrange
    have hstate : (mergeRemotes index db (r :: rest)).1 =
        (mergeRemotes index (mergeOneRemote index db r).1 rest).1 := rfl
    rw [hstate]
    cases hm : lookupTag index (getClientTag r) with
    | some pk =>
      have hone := mergeOneRemote_matched index db r pk hm
      have hpk : pk ≠ p := by
        intro hx
        exact hno r (List.mem_cons_self _ _) (hx ▸ hm)
      rw [hone]
      have hn2 : (db.updateAt pk r).nextKey = db.nextKey := rfl
      rw [ih (db.updateAt pk r) p
        (fun x hx => hno x (List.mem_cons_of_mem _ hx))
        (by rw [hn2]; simp only [List.length_cons] at hrange; omega)]
      exact lookup_updateAt_ne db pk p r hpk
    | none =>
      have hone := mergeOneRemote_unmatched index db r hm
      have hp : p ≠ db.nextKey := by
        simp only [List.length_cons] at hrange
        omega
      rw [hone]
      have hn2 : (db.addLogin r).1.nextKey = db.nextKey + 1 := rfl
      rw [ih (db.addLogin r).1 p
        (fun x hx => hno x (List.mem_cons_of_mem _ hx))
        (by rw [hn2]; simp only [List.length_cons] at hrange; omega)]
      exact lookup_append_ne db r p hp

theorem mergeRemotes_lookup_none (index : List (String × Nat))
    (rs : List PasswordForm) :
    ∀ (db : FakeDatabase) (p : Nat),
      db.lookup p = none →
      db.nextKey + countUnmatched index rs ≤ p →
      (mergeRemotes index db rs).1.lookup p = none := by
  induction rs with
  | nil => intro db p hnone _; exact hnone
  | cons r rest ih =>
    intro db p hnone hge
    have hstate : (mergeRemotes index db (r :: rest)).1 =
        (mergeRemotes index (mergeOneRemote index db r).1 rest).1 := rfl
    rw [hstate]
    cases hm : lookupTag index (getClientTag r) with
    | some pk =>
      rw [mergeOneRemote_matched index db r pk hm]
      refine ih (db.updateAt pk r) p
        (lookup_updateAt_none db pk p r hnone) ?_
      have hcu := countUnmatched_matched index r rest pk hm
      rw [hcu] at hge
      exact hge
    | none =>
      rw [mergeOneRemote_unmatched index db r hm]
      have hcu := countUnmatched_unmatched index r rest hm
      rw [hcu] at hge
      have hp : p ≠ db.nextKey := by omega
      refine ih (db.addLogin r).1 p ?_ ?_
      · rw [lookup_append_ne db r p hp]
        exact hnone
      · have hn2 : (db.addLogin r).1.nextKey = db.nextKey + 1 := rfl
        rw [hn2]
        omega

theorem tag_ne_of_split (pre post : List PasswordForm) (r : PasswordForm)
    (hnd : (((pre ++ r :: post).map getClientTag)).Nodup) :
    (∀ x ∈ pre, getClientTag x ≠ getClientTag r) ∧
    (∀ x ∈ post, getClientTag x ≠ getClientTag r) := by
  rw [List.map_append, List.map_cons] at hnd
  constructor
  · intro x hx heq
    have hd := List.disjoint_of_nodup_append hnd
    exact hd (heq ▸ List.mem_map_of_mem getClientTag hx)
      (List.mem_cons_self _ _)
  · intro x hx heq
    have hnd2 := hnd.of_append_right
    rw [List.nodup_cons] at hnd2
    exact hnd2.1 (heq ▸ List.mem_map_of_mem getClientTag hx)

theorem lookup_none_of_range (db : FakeDatabase) (p : Nat)
    (h : ∀ q ∈ db.data, q.1 ≠ p) : db.lookup p = none := by
  show (db.data.find? (fun q => q.1 == p)).map (fun q => q.2) = none
  have hf : db.data.find? (fun q => q.1 == p) = none := by
    rw [List.find?_eq_none]
    intro q hq hb
    exact h q hq (eq_of_beq hb)
  rw [hf]
  rfl

theorem mergeSyncData_eq (mdStoreId : Nat) (tracking : Bool)
    (db : FakeDatabase) (mds : MetadataStore) (mcl : List MetadataOp)
    (remotes : List PasswordForm) (hne : remotes ≠ []) :
    mergeSyncData mdStoreId tracking db mds mcl remotes =
      ((mergeRemotes (localIndex db) db remotes).1,
       applyMetadataChangeList mds mcl,
       Event.beginTransaction ::
         mergeEventSpec (localIndex db) db.nextKey remotes ++
         localOnlyPuts mdStoreId db.data (remotes.map getClientTag) ++
         [Event.commitTransaction] ++
         [Event.notifyLoginsChanged
           (mergeChangeSpec (localIndex db) db.nextKey remotes)],
       none) := by
  obtain ⟨hcs, hes, -⟩ := mergeRemotes_spec (localIndex db) remotes db
  have hie : (mergeRemotes (localIndex db) db remotes).2.1.isEmpty = false := by
    rw [hcs]
    cases hr : remotes with
    | nil => exact absurd hr hne
    | cons a l =>
      have hlen := mergeChangeSpec_length (localIndex db) (a :: l) db.nextKey
      cases hx : mergeChangeSpec (localIndex db) db.nextKey (a :: l) with
      | nil => rw [hx] at hlen; simp at hlen
      | cons b m => rfl
  simp [mergeSyncData, hie, hcs, hes, actOnPasswordStoreChanges]
  intro hx
  have hlen := mergeChangeSpec_length (localIndex db) remotes db.nextKey
  rw [hx] at hlen
  cases hr : remotes with
  | nil => exact hne hr
  | cons a l =>
    rw [hr] at hlen
    simp at hlen

theorem merge_state_matched (db : FakeDatabase) (pre post : List PasswordForm)
    (r : PasswordForm) (pk : Nat)
    (hm : lookupTag (localIndex db) (getClientTag r) = some pk)
    (hTags : (((pre ++ r :: post).map getClientTag)).Nodup)
    (hKeys : (db.data.map Prod.fst).Nodup)
    (hRange : ∀ q ∈ db.data, q.1 < db.nextKey ∨
      db.nextKey + (pre ++ r :: post).length ≤ q.1) :
    (mergeRemotes (localIndex db) db (pre ++ r :: post)).1.lookup pk =
      some r := by
  obtain ⟨f₀, hfmem, hftag⟩ := lookupTag_localIndex db (getClientTag r) pk hm
  have hlook : db.lookup pk = some f₀ := lookup_of_mem_nodup db pk f₀ hfmem hKeys
  have hpkr := hRange (pk, f₀) hfmem
  simp only [List.length_append, List.length_cons] at hpkr
  obtain ⟨hpre, hpost⟩ := tag_ne_of_split pre post r hTags
  have hnopre : ∀ x ∈ pre, lookupTag (localIndex db) (getClientTag x) ≠
      some pk := by
    intro x hx hcontra
    exact hpre x hx (localIndex_value_unique db pk hKeys _ _ hcontra hm)
  have hnopost : ∀ x ∈ post, lookupTag (localIndex db) (getClientTag x) ≠
      some pk := by
    intro x hx hcontra
    exact hpost x hx (localIndex_value_unique db pk hKeys _ _ hcontra hm)
  have h1 : (mergeRemotes (localIndex db) db pre).1.lookup pk = some f₀ := by
    rw [mergeRemotes_lookup_preserved (localIndex db) pre db pk hnopre
      (by omega)]
    exact hlook
  rw [mergeRemotes_state_append (localIndex db) pre (r :: post) db]
  have hstate : (mergeRemotes (localIndex db)
      (mergeRemotes (localIndex db) db pre).1 (r :: post)).1 =
      (mergeRemotes (localIndex db)
        (mergeOneRemote (localIndex db)
          (mergeRemotes (localIndex db) db pre).1 r).1 post).1 := rfl
  rw [hstate, mergeOneRemote_matched (localIndex db)
    (mergeRemotes (localIndex db) db pre).1 r pk hm]
  obtain ⟨-, -, hnk⟩ := mergeRemotes_spec (localIndex db) pre db
  have hcu := countUnmatched_le_length (localIndex db) pre
  have hupd : ((mergeRemotes (localIndex db) db pre).1.updateAt pk r).nextKey =
      (mergeRemotes (localIndex db) db pre).1.nextKey := rfl
  rw [mergeRemotes_lookup_preserved (localIndex db) post _ pk hnopost
    (by rw [hupd, hnk]; omega)]
  exact lookup_updateAt_self (mergeRemotes (localIndex db) db pre).1 pk r f₀ h1

theorem merge_state_fresh (db : FakeDatabase) (pre post : List PasswordForm)
    (r : PasswordForm)
    (hm : lookupTag (localIndex db) (getClientTag r) = none)
    (hRange : ∀ q ∈ db.data, q.1 < db.nextKey ∨
      db.nextKey + (pre ++ r :: post).length ≤ q.1) :
    db.lookup (db.nextKey + countUnmatched (localIndex db) pre) = none ∧
    (mergeRemotes (localIndex db) db (pre ++ r :: post)).1.lookup
        (db.nextKey + countUnmatched (localIndex db) pre) = some r := by
  have hcu := countUnmatched_le_length (localIndex db) pre
  have hlen : (pre ++ r :: post).length = pre.length + post.length + 1 := by
    simp [List.length_append]
    omega
  have hdbk : db.lookup (db.nextKey + countUnmatched (localIndex db) pre) =
      none := by
    apply lookup_none_of_range
    intro q hq
    have := hRange q hq
    rw [hlen] at this
    omega
  refine ⟨hdbk, ?_⟩
  have h1 : (mergeRemotes (localIndex db) db pre).1.lookup
      (db.nextKey + countUnmatched (localIndex db) pre) = none := by
    obtain ⟨-, -, hnk⟩ := mergeRemotes_spec (localIndex db) pre db
    exact mergeRemotes_lookup_none (localIndex db) pre db _ hdbk (by omega)
  obtain ⟨-, -, hnk⟩ := mergeRemotes_spec (localIndex db) pre db
  rw [mergeRemotes_state_append (localIndex db) pre (r :: post) db]
  have hstate : (mergeRemotes (localIndex db)
      (mergeRemotes (localIndex db) db pre).1 (r :: post)).1 =
      (mergeRemotes (localIndex db)
        (mergeOneRemote (localIndex db)
          (mergeRemotes (localIndex db) db pre).1 r).1 post).1 := rfl
  rw [hstate, mergeOneRemote_unmatched (localIndex db)
    (mergeRemotes (localIndex db) db pre).1 r hm]
  have hnopost : ∀ x ∈ post, lookupTag (localIndex db) (getClientTag x) ≠
      some (db.nextKey + countUnmatched (localIndex db) pre) := by
    intro x hx hcontra
    obtain ⟨g, hgmem, -⟩ := lookupTag_localIndex db (getClientTag x) _ hcontra
    have := hRange _ hgmem
    rw [hlen] at this
    omega
  have hadd : ((mergeRemotes (localIndex db) db pre).1.addLogin r).1.nextKey =
      (mergeRemotes (localIndex db) db pre).1.nextKey + 1 := rfl
  rw [mergeRemotes_lookup_preserved (localIndex db) post _ _ hnopost
    (by rw [hadd, hnk]; omega)]
  have h2 := lookup_addLogin_self (mergeRemotes (localIndex db) db pre).1 r
    (by rw [hnk]; exact h1)
  rw [hnk] at h2
  exact h2

theorem merge_state_local_only (db : FakeDatabase)
    (remotes : List PasswordForm) (pk : Nat) (f : PasswordForm)
    (hmem : (pk, f) ∈ db.data)
    (hno : (remotes.map getClientTag).contains (getClientTag f) = false)
    (hKeys : (db.data.map Prod.fst).Nodup)
    (hRange : ∀ q ∈ db.data, q.1 < db.nextKey ∨
      db.nextKey + remotes.length ≤ q.1) :
    (mergeRemotes (localIndex db) db remotes).1.lookup pk = some f := by
  have hnor : ∀ x ∈ remotes, lookupTag (localIndex db) (getClientTag x) ≠
      some pk := by
    intro x hx hcontra
    obtain ⟨g, hgmem, hgtag⟩ :=
      lookupTag_localIndex db (getClientTag x) pk hcontra
    have hgf : g = f := by
      have h1 := lookup_of_mem_nodup db pk g hgmem hKeys
      have h2 := lookup_of_mem_nodup db pk f hmem hKeys
      rw [h1] at h2
      exact Option.some.inj h2
    have : getClientTag f ∈ remotes.map getClientTag := by
      rw [← hgf, hgtag]
      exact List.mem_map_of_mem getClientTag hx
    have hc : (remotes.map getClientTag).contains (getClientTag f) = true :=
      List.elem_eq_true_of_mem this
    rw [hno] at hc
    exact Bool.noConfusion hc
  rw [mergeRemotes_lookup_preserved (localIndex db) remotes db pk hnor
    (hRange (pk, f) hmem)]
  exact lookup_of_mem_nodup db pk f hmem hKeys

theorem mergeEventSpec_countP_put (index : List (String × Nat)) (k pk : Nat)
    (rs : List PasswordForm) :
    (mergeEventSpec index k rs).countP (isPutFor pk) = 0 := by
  rw [List.countP_eq_zero]
  intro e he
  rcases mergeEventSpec_mem index rs k e he with ⟨r, h⟩ | ⟨r, h⟩ | ⟨q, h⟩ <;>
    subst h <;> simp [isPutFor]

theorem mergeEventSpec_count_eq_zero (index : List (String × Nat)) (k : Nat)
    (rs : List PasswordForm) (ev : Event)
    (h1 : ∀ r : PasswordForm, Event.addLoginSync r ≠ ev)
    (h2 : ∀ r : PasswordForm, Event.updateLoginSync r ≠ ev)
    (h3 : ∀ q : Nat, Event.updateStorageKey q ≠ ev) :
    (mergeEventSpec index k rs).count ev = 0 := by
  rw [List.count_eq_countP, List.countP_eq_zero]
  intro e he hb
  rcases mergeEventSpec_mem index rs k e he with ⟨r, h⟩ | ⟨r, h⟩ | ⟨q, h⟩ <;>
    subst h
  · exact h1 r (eq_of_beq hb)
  · exact h2 r (eq_of_beq hb)
  · exact h3 q (eq_of_beq hb)

theorem localOnlyPuts_count_eq_zero (mdStoreId : Nat)
    (snapshot : List (Nat × PasswordForm)) (remoteTags : List String)
    (ev : Event)
    (hev : ∀ q : Nat × PasswordForm, Event.put q.1 q.2 mdStoreId ≠ ev) :
    (localOnlyPuts mdStoreId snapshot remoteTags).count ev = 0 := by
  rw [List.count_eq_countP, List.countP_eq_zero]
  intro e he hb
  obtain ⟨q, -, hqe, -⟩ := localOnlyPuts_mem mdStoreId snapshot remoteTags e he
  subst hqe
  exact hev q (eq_of_beq hb)

theorem mergeTrace_count (mdStoreId : Nat) (tracking : Bool)
    (db : FakeDatabase) (mds : MetadataStore) (mcl : List MetadataOp)
    (remotes : List PasswordForm) (hne : remotes ≠ []) (ev : Event)
    (hb : (Event.beginTransaction == ev) = false)
    (hc : (Event.commitTransaction == ev) = false)
    (hn : (Event.notifyLoginsChanged
      (mergeChangeSpec (localIndex db) db.nextKey remotes) == ev) = false) :
    ((mergeSyncData mdStoreId tracking db mds mcl remotes).2.2.1).count ev =
      (mergeEventSpec (localIndex db) db.nextKey remotes).count ev +
      (localOnlyPuts mdStoreId db.data (remotes.map getClientTag)).count
        ev := by
  rw [mergeSyncData_eq mdStoreId tracking db mds mcl remotes hne]
  show (Event.beginTransaction ::
    (mergeEventSpec (localIndex db) db.nextKey remotes ++
      localOnlyPuts mdStoreId db.data (remotes.map getClientTag) ++
      [Event.commitTransaction] ++
      [Event.notifyLoginsChanged
        (mergeChangeSpec (localIndex db) db.nextKey remotes)])).count ev = _
  rw [List.count_cons, List.count_append, List.count_append,
    List.count_append, List.count_singleton, List.count_singleton,
    hb, hc, hn]
  simp

theorem mergeTrace_countP_put (mdStoreId : Nat) (tracking : Bool)
    (db : FakeDatabase) (mds : MetadataStore) (mcl : List MetadataOp)
    (remotes : List PasswordForm) (hne : remotes ≠ []) (pk : Nat) :
    ((mergeSyncData mdStoreId tracking db mds mcl remotes).2.2.1).countP
        (isPutFor pk) =
      (localOnlyPuts mdStoreId db.data (remotes.map getClientTag)).countP
        (isPutFor pk) := by
  rw [mergeSyncData_eq mdStoreId tracking db mds mcl remotes hne]
  show (Event.beginTransaction ::
    (mergeEventSpec (localIndex db) db.nextKey remotes ++
      localOnlyPuts mdStoreId db.data (remotes.map getClientTag) ++
      [Event.commitTransaction] ++
      [Event.notifyLoginsChanged
        (mergeChangeSpec (localIndex db) db.nextKey remotes)])).countP
      (isPutFor pk) = _
  rw [List.countP_cons_of_neg _ _ (by simp [isPutFor]),
    List.countP_append, List.countP_append, List.countP_append,
    List.countP_singleton, List.countP_singleton,
    mergeEventSpec_countP_put]
  simp [isPutFor]

/-- C1 (amended): for a matched pair at initial merge — a remote record
whose client tag is carried by a resident local record at primary key
`pk` — `MergeSyncData` performs exactly one local-store Update of that
record with the remote payload winning (the store ends up holding the
remote version under the existing key), issues no `Put` for that record,
performs no Add for it, and issues exactly one `UpdateStorageKey` call
carrying the existing local primary key's storage key (recording the
implied key without requesting a new one).  The hypotheses are the store
invariants: distinct client tags among the remote records, distinct
resident primary keys, and resident keys disjoint from the auto-increment
range the merge can consume. -/
theorem mergeSyncData_matched_pair (mdStoreId : Nat) (tracking : Bool)
    (db : FakeDatabase) (mds : MetadataStore) (mcl : List MetadataOp)
    (pre post : List PasswordForm) (r : PasswordForm) (pk : Nat)
    (hm : lookupTag (localIndex db) (getClientTag r) = some pk)
    (hTags : (((pre ++ r :: post).map getClientTag)).Nodup)
    (hKeys : (db.data.map Prod.fst).Nodup)
    (hRange : ∀ q ∈ db.data, q.1 < db.nextKey ∨
      db.nextKey + (pre ++ r :: post).length ≤ q.1) :
    (mergeSyncData mdStoreId tracking db mds mcl
        (pre ++ r :: post)).1.lookup pk = some r ∧
    ((mergeSyncData mdStoreId tracking db mds mcl
        (pre ++ r :: post)).2.2.1).count (Event.updateLoginSync r) = 1 ∧
    ((mergeSyncData mdStoreId tracking db mds mcl
        (pre ++ r :: post)).2.2.1).count (Event.updateStorageKey pk) = 1 ∧
    ((mergeSyncData mdStoreId tracking db mds mcl
        (pre ++ r :: post)).2.2.1).countP (isPutFor pk) = 0 ∧
    ((mergeSyncData mdStoreId tracking db mds mcl
        (pre ++ r :: post)).2.2.1).count (Event.addLoginSync r) = 0 := by
  have hne : pre ++ r :: post ≠ [] := by simp
  have hrmem : r ∈ pre ++ r :: post := by simp
  obtain ⟨f₀, hf₀mem, hf₀tag⟩ := lookupTag_localIndex db (getClientTag r) pk hm
  refine ⟨?_, ?_, ?_, ?_, ?_⟩
  · have hD : (mergeSyncData mdStoreId tracking db mds mcl
        (pre ++ r :: post)).1 =
        (mergeRemotes (localIndex db) db (pre ++ r :: post)).1 := by
      rw [mergeSyncData_eq mdStoreId tracking db mds mcl _ hne]
    rw [hD]
    exact merge_state_matched db pre post r pk hm hTags hKeys hRange
  · rw [mergeTrace_count mdStoreId tracking db mds mcl _ hne
      (Event.updateLoginSync r) rfl rfl rfl]
    rw [mergeEventSpec_count_upd (localIndex db) r (pre ++ r :: post)
      db.nextKey]
    rw [localOnlyPuts_count_eq_zero mdStoreId db.data _ _
      (fun q h => Event.noConfusion h)]
    rw [countP_eq_one_of_nodup_map getClientTag (pre ++ r :: post) _ r hTags
      hrmem (by simp [hm]) ?_]
    intro x hx hpx
    simp only [Bool.and_eq_true, beq_iff_eq] at hpx
    rw [hpx.2]
  · rw [mergeTrace_count mdStoreId tracking db mds mcl _ hne
      (Event.updateStorageKey pk) rfl rfl rfl]
    rw [mergeEventSpec_count_updSK (localIndex db) pk (pre ++ r :: post)
      db.nextKey]
    rw [localOnlyPuts_count_eq_zero mdStoreId db.data _ _
      (fun q h => Event.noConfusion h)]
    have hcount1 : (pre ++ r :: post).countP
        (fun x => lookupTag (localIndex db) (getClientTag x) == some pk) =
        1 := by
      refine countP_eq_one_of_nodup_map getClientTag (pre ++ r :: post) _ r
        hTags hrmem (by simp [hm]) ?_
      intro x hx hpx
      have hx2 : lookupTag (localIndex db) (getClientTag x) = some pk := by
        simpa using hpx
      exact localIndex_value_unique db pk hKeys _ _ hx2 hm
    rw [hcount1]
    have hpkr := hRange (pk, f₀) hf₀mem
    have hcu := countUnmatched_le_length (localIndex db) (pre ++ r :: post)
    rw [if_neg (by omega)]
  · rw [mergeTrace_countP_put mdStoreId tracking db mds mcl _ hne pk]
    rw [localOnlyPuts_countP_key]
    rw [List.countP_eq_zero]
    intro q hq hb
    simp only [Bool.and_eq_true, beq_iff_eq] at hb
    obtain ⟨hb1, hb2⟩ := hb
    have hqmem : (pk, q.2) ∈ db.data := by
      rw [← hb1]
      exact hq
    have hq2 : q.2 = f₀ := by
      have h1 := lookup_of_mem_nodup db pk q.2 hqmem hKeys
      have h2 := lookup_of_mem_nodup db pk f₀ hf₀mem hKeys
      rw [h1] at h2
      exact Option.some.inj h2
    have hmemtag : getClientTag q.2 ∈ (pre ++ r :: post).map getClientTag := by
      rw [hq2, hf₀tag]
      exact List.mem_map_of_mem getClientTag hrmem
    have hc : ((pre ++ r :: post).map getClientTag).contains
        (getClientTag q.2) = true := List.elem_eq_true_of_mem hmemtag
    rw [hc] at hb2
    exact Bool.noConfusion hb2
  · rw [mergeTrace_count mdStoreId tracking db mds mcl _ hne
      (Event.addLoginSync r) rfl rfl rfl]
    rw [mergeEventSpec_count_add (localIndex db) r (pre ++ r :: post)
      db.nextKey]
    rw [localOnlyPuts_count_eq_zero mdStoreId db.data _ _
      (fun q h => Event.noConfusion h)]
    rw [List.countP_eq_zero.mpr ?_]
    intro x hx hb
    simp only [Bool.and_eq_true, beq_iff_eq] at hb
    obtain ⟨hb1, hb2⟩ := hb
    rw [hb2, hm] at hb1
    exact Bool.noConfusion hb1

/-- C2: for a remote-only record at initial merge (no local client-tag
match), `MergeSyncData` performs exactly one local-store Add — the store
assigns the fresh auto-increment key, unused by any resident record — and
issues exactly one `UpdateStorageKey` call carrying that newly assigned
key's storage key, no `Put` call with that key, and no Update for that
record. -/
theorem mergeSyncData_remote_only (mdStoreId : Nat) (tracking : Bool)
    (db : FakeDatabase) (mds : MetadataStore) (mcl : List MetadataOp)
    (pre post : List PasswordForm) (r : PasswordForm)
    (hm : lookupTag (localIndex db) (getClientTag r) = none)
    (hTags : (((pre ++ r :: post).map getClientTag)).Nodup)
    (hRange : ∀ q ∈ db.data, q.1 < db.nextKey ∨
      db.nextKey + (pre ++ r :: post).length ≤ q.1) :
    db.lookup (db.nextKey + countUnmatched (localIndex db) pre) = none ∧
    (mergeSyncData mdStoreId tracking db mds mcl
        (pre ++ r :: post)).1.lookup
        (db.nextKey + countUnmatched (localIndex db) pre) = some r ∧
    ((mergeSyncData mdStoreId tracking db mds mcl
        (pre ++ r :: post)).2.2.1).count (Event.addLoginSync r) = 1 ∧
    ((mergeSyncData mdStoreId tracking db mds mcl
        (pre ++ r :: post)).2.2.1).count (Event.updateStorageKey
        (db.nextKey + countUnmatched (localIndex db) pre)) = 1 ∧
    ((mergeSyncData mdStoreId tracking db mds mcl
        (pre ++ r :: post)).2.2.1).countP (isPutFor
        (db.nextKey + countUnmatched (localIndex db) pre)) = 0 ∧
    ((mergeSyncData mdStoreId tracking db mds mcl
        (pre ++ r :: post)).2.2.1).count (Event.updateLoginSync r) = 0 := by
  have hne : pre ++ r :: post ≠ [] := by simp
  have hrmem : r ∈ pre ++ r :: post := by simp
  have hcup := countUnmatched_le_length (localIndex db) pre
  have hlen : (pre ++ r :: post).length = pre.length + post.length + 1 := by
    simp
    omega
  obtain ⟨hfresh, hstate⟩ := merge_state_fresh db pre post r hm hRange
  have hknotlocal : ∀ g : PasswordForm,
      (db.nextKey + countUnmatched (localIndex db) pre, g) ∈ db.data →
      False := by
    intro g hg
    have := hRange _ hg
    rw [hlen] at this
    omega
  refine ⟨hfresh, ?_, ?_, ?_, ?_, ?_⟩
  · have hD : (mergeSyncData mdStoreId tracking db mds mcl
        (pre ++ r :: post)).1 =
        (mergeRemotes (localIndex db) db (pre ++ r :: post)).1 := by
      rw [mergeSyncData_eq mdStoreId tracking db mds mcl _ hne]
    rw [hD]
    exact hstate
  · rw [mergeTrace_count mdStoreId tracking db mds mcl _ hne
      (Event.addLoginSync r) rfl rfl rfl]
    rw [mergeEventSpec_count_add (localIndex db) r (pre ++ r :: post)
      db.nextKey]
    rw [localOnlyPuts_count_eq_zero mdStoreId db.data _ _
      (fun q h => Event.noConfusion h)]
    rw [countP_eq_one_of_nodup_map getClientTag (pre ++ r :: post) _ r hTags
      hrmem (by simp [hm]) ?_]
    intro x hx hpx
    simp only [Bool.and_eq_true, beq_iff_eq] at hpx
    rw [hpx.2]
  · rw [mergeTrace_count mdStoreId tracking db mds mcl _ hne
      (Event.updateStorageKey
        (db.nextKey + countUnmatched (localIndex db) pre)) rfl rfl rfl]
    rw [mergeEventSpec_count_updSK (localIndex db) _ (pre ++ r :: post)
      db.nextKey]
    rw [localOnlyPuts_count_eq_zero mdStoreId db.data _ _
      (fun q h => Event.noConfusion h)]
    have hz : (pre ++ r :: post).countP (fun x =>
        lookupTag (localIndex db) (getClientTag x) ==
          some (db.nextKey + countUnmatched (localIndex db) pre)) = 0 := by
      rw [List.countP_eq_zero]
      intro x hx hb
      have hx2 : lookupTag (localIndex db) (getClientTag x) =
          some (db.nextKey + countUnmatched (localIndex db) pre) := by
        simpa using hb
      obtain ⟨g, hg, -⟩ := lookupTag_localIndex db (getClientTag x) _ hx2
      exact hknotlocal g hg
    rw [hz]
    have hcusplit : countUnmatched (localIndex db) (pre ++ r :: post) =
        countUnmatched (localIndex db) pre +
          (countUnmatched (localIndex db) post + 1) := by
      show (pre ++ r :: post).countP _ = _
      rw [List.countP_append]
      show countUnmatched (localIndex db) pre +
        countUnmatched (localIndex db) (r :: post) = _
      rw [countUnmatched_unmatched (localIndex db) r post hm]
    rw [if_pos (by rw [hcusplit]; omega)]
  · rw [mergeTrace_countP_put mdStoreId tracking db mds mcl _ hne _]
    rw [localOnlyPuts_countP_key]
    rw [List.countP_eq_zero]
    intro q hq hb
    simp only [Bool.and_eq_true, beq_iff_eq] at hb
    refine hknotlocal q.2 ?_
    rw [← hb.1]
    exact hq
  · rw [mergeTrace_count mdStoreId tracking db mds mcl _ hne
      (Event.updateLoginSync r) rfl rfl rfl]
    rw [mergeEventSpec_count_upd (localIndex db) r (pre ++ r :: post)
      db.nextKey]
    rw [localOnlyPuts_count_eq_zero mdStoreId db.data _ _
      (fun q h => Event.noConfusion h)]
    rw [List.countP_eq_zero.mpr ?_]
    intro x hx hb
    simp only [Bool.and_eq_true, beq_iff_eq] at hb
    obtain ⟨hb1, hb2⟩ := hb
    rw [hb2, hm] at hb1
    exact Bool.noConfusion hb1

theorem mergeChangeSpec_countP_pk (index : List (String × Nat)) (p : Nat)
    (rs : List PasswordForm) :
    ∀ k, (mergeChangeSpec index k rs).countP (fun c => c.primaryKey == p) =
      rs.countP (fun x => lookupTag index (getClientTag x) == some p) +
      (if k ≤ p ∧ p < k + countUnmatched index rs then 1 else 0) := by
  induction rs with
  | nil =>
    intro k
    have h0 : countUnmatched index ([] : List PasswordForm) = 0 := rfl
    rw [h0, if_neg (by omega)]
    rfl
  | cons r rest ih =>
    intro k
    cases hm : lookupTag index (getClientTag r) with
    | some pk =>
      rw [mergeChangeSpec_matched index k r rest pk hm,
        countUnmatched_matched index r rest pk hm]
      by_cases hpk : pk = p
      · subst hpk
        rw [List.countP_cons_of_pos _ _ (by simp), ih k,
          List.countP_cons_of_pos _ _ (by simp [hm])]
        omega
      · rw [List.countP_cons_of_neg _ _ (by simp [hpk]), ih k,
          List.countP_cons_of_neg _ _ (by simp [hm, hpk])]
    | none =>
      rw [mergeChangeSpec_unmatched index k r rest hm,
        countUnmatched_unmatched index r rest hm]
      by_cases hkp : k = p
      · subst hkp
        rw [List.countP_cons_of_pos _ _ (by simp), ih (k + 1),
          List.countP_cons_of_neg _ _ (by simp [hm])]
        rw [if_neg (by omega), if_pos (by
          have := countUnmatched_le_length index rest
          omega)]
      · rw [List.countP_cons_of_neg _ _ (by simp [hkp]), ih (k + 1),
          List.countP_cons_of_neg _ _ (by simp [hm])]
        by_cases hr : k + 1 ≤ p ∧ p < k + 1 + countUnmatched index rest
        · rw [if_pos hr, if_pos (by omega)]
        · rw [if_neg hr, if_neg (by omega)]

theorem mergeTrace_notify (mdStoreId : Nat) (tracking : Bool)
    (db : FakeDatabase) (mds : MetadataStore) (mcl : List MetadataOp)
    (remotes : List PasswordForm) (hne : remotes ≠ [])
    (cs : List PasswordStoreChange)
    (h : Event.notifyLoginsChanged cs ∈
      (mergeSyncData mdStoreId tracking db mds mcl remotes).2.2.1) :
    cs = mergeChangeSpec (localIndex db) db.nextKey remotes := by
  rw [mergeSyncData_eq mdStoreId tracking db mds mcl remotes hne] at h
  have h2 : Event.notifyLoginsChanged cs ∈
      (mergeEventSpec (localIndex db) db.nextKey remotes ++
        localOnlyPuts mdStoreId db.data (remotes.map getClientTag) ++
        [Event.commitTransaction] ++
        [Event.notifyLoginsChanged
          (mergeChangeSpec (localIndex db) db.nextKey remotes)]) := by
    rcases List.mem_cons.mp h with h1 | h1
    · exact Event.noConfusion h1
    · exact h1
  rcases List.mem_append.mp h2 with h3 | h3
  · rcases List.mem_append.mp h3 with h4 | h4
    · rcases List.mem_append.mp h4 with h5 | h5
      · rcases mergeEventSpec_mem (localIndex db) remotes db.nextKey _ h5 with
          ⟨r, hx⟩ | ⟨r, hx⟩ | ⟨q, hx⟩ <;> exact Event.noConfusion hx
      · obtain ⟨q, -, hx, -⟩ := localOnlyPuts_mem mdStoreId db.data _ _ h5
        exact Event.noConfusion hx
    · exact Event.noConfusion (List.mem_singleton.mp h4)
  · exact Event.notifyLoginsChanged.inj (List.mem_singleton.mp h3)

/-- C3: for a local-only record at initial merge — a record resident at
primary key `pk` whose client tag matches no remote record —
`MergeSyncData` issues exactly one `Put` call to the remote processor,
that call is keyed by the record's existing storage key and carries its
payload, and no local-store mutation touches the record: it remains
resident unchanged under its key and the batch's change list carries no
change record for that key.  The hypotheses are the store invariants:
distinct resident primary keys and resident keys disjoint from the
auto-increment range the merge can consume. -/
theorem mergeSyncData_local_only (mdStoreId : Nat) (tracking : Bool)
    (db : FakeDatabase) (mds : MetadataStore) (mcl : List MetadataOp)
    (remotes : List PasswordForm) (pk : Nat) (f : PasswordForm)
    (hne : remotes ≠ [])
    (hmem : (pk, f) ∈ db.data)
    (hno : (remotes.map getClientTag).contains (getClientTag f) = false)
    (hKeys : (db.data.map Prod.fst).Nodup)
    (hRange : ∀ q ∈ db.data, q.1 < db.nextKey ∨
      db.nextKey + remotes.length ≤ q.1) :
    (mergeSyncData mdStoreId tracking db mds mcl remotes).1.lookup pk =
      some f ∧
    ((mergeSyncData mdStoreId tracking db mds mcl remotes).2.2.1).count
      (Event.put pk f mdStoreId) = 1 ∧
    ((mergeSyncData mdStoreId tracking db mds mcl remotes).2.2.1).countP
      (isPutFor pk) = 1 ∧
    (∀ cs, Event.notifyLoginsChanged cs ∈
        (mergeSyncData mdStoreId tracking db mds mcl remotes).2.2.1 →
      ∀ c ∈ cs, c.primaryKey ≠ pk) := by
  have hnor : ∀ x ∈ remotes, lookupTag (localIndex db) (getClientTag x) ≠
      some pk := by
    intro x hx hcontra
    obtain ⟨g, hgmem, hgtag⟩ :=
      lookupTag_localIndex db (getClientTag x) pk hcontra
    have hgf : g = f := by
      have h1 := lookup_of_mem_nodup db pk g hgmem hKeys
      have h2 := lookup_of_mem_nodup db pk f hmem hKeys
      rw [h1] at h2
      exact Option.some.inj h2
    have hmt : getClientTag f ∈ remotes.map getClientTag := by
      rw [← hgf, hgtag]
      exact List.mem_map_of_mem getClientTag hx
    have hc : (remotes.map getClientTag).contains (getClientTag f) = true :=
      List.elem_eq_true_of_mem hmt
    rw [hno] at hc
    exact Bool.noConfusion hc
  refine ⟨?_, ?_, ?_, ?_⟩
  · have hD : (mergeSyncData mdStoreId tracking db mds mcl remotes).1 =
        (mergeRemotes (localIndex db) db remotes).1 := by
      rw [mergeSyncData_eq mdStoreId tracking db mds mcl remotes hne]
    rw [hD]
    exact merge_state_local_only db remotes pk f hmem hno hKeys hRange
  · have h1 : db.data.countP (fun q => q.1 == pk && q.2 == f &&
        !((remotes.map getClientTag).contains (getClientTag q.2))) = 1 := by
      refine countP_eq_one_of_nodup_map Prod.fst db.data _ (pk, f) hKeys
        hmem ?_ ?_
      · show (pk == pk && f == f &&
          !((remotes.map getClientTag).contains (getClientTag f))) = true
        rw [hno]
        simp
      · intro x hx hpx
        simp only [Bool.and_eq_true, beq_iff_eq] at hpx
        exact hpx.1.1
    rw [mergeTrace_count mdStoreId tracking db mds mcl remotes hne
      (Event.put pk f mdStoreId) rfl rfl rfl]
    rw [mergeEventSpec_count_eq_zero (localIndex db) db.nextKey remotes _
      (fun r h => Event.noConfusion h) (fun r h => Event.noConfusion h)
      (fun q h => Event.noConfusion h)]
    rw [localOnlyPuts_count mdStoreId db.data (remotes.map getClientTag)
      pk f]
    rw [h1]
  · have h1 : db.data.countP (fun q => q.1 == pk &&
        !((remotes.map getClientTag).contains (getClientTag q.2))) = 1 := by
      refine countP_eq_one_of_nodup_map Prod.fst db.data _ (pk, f) hKeys
        hmem ?_ ?_
      · show (pk == pk &&
          !((remotes.map getClientTag).contains (getClientTag f))) = true
        rw [hno]
        simp
      · intro x hx hpx
        simp only [Bool.and_eq_true, beq_iff_eq] at hpx
        exact hpx.1
    rw [mergeTrace_countP_put mdStoreId tracking db mds mcl remotes hne pk]
    rw [localOnlyPuts_countP_key]
    rw [h1]
  · intro cs hcs c hc hcp
    have hcseq := mergeTrace_notify mdStoreId tracking db mds mcl remotes
      hne cs hcs
    subst hcseq
    have hz : (mergeChangeSpec (localIndex db) db.nextKey remotes).countP
        (fun c => c.primaryKey == pk) = 0 := by
      rw [mergeChangeSpec_countP_pk (localIndex db) pk remotes db.nextKey]
      have hz1 : remotes.countP
          (fun x => lookupTag (localIndex db) (getClientTag x) == some pk) =
          0 := by
        rw [List.countP_eq_zero]
        intro x hx hb
        exact hnor x hx (eq_of_beq hb)
      have hpkr := hRange (pk, f) hmem
      have hcu := countUnmatched_le_length (localIndex db) remotes
      rw [hz1, if_neg (by omega)]
    exact (List.countP_eq_zero.mp hz c hc) (by simp [hcp])

/-- Witness for C3 on the merge test scenario: the local record at primary
key 1000 (realm "abc") matches neither remote record and produces exactly
one `Put` under storage key 1000 while remaining resident unchanged. -/
theorem mergeSyncData_local_only_witness :
    (mergeSyncData 7 true mergeTestDb [] []
        [makePasswordForm "def", makePasswordForm "xyz"]).1.lookup 1000 =
      some (makePasswordForm "abc") ∧
    ((mergeSyncData 7 true mergeTestDb [] []
        [makePasswordForm "def", makePasswordForm "xyz"]).2.2.1).count
      (Event.put 1000 (makePasswordForm "abc") 7) = 1 ∧
    ((mergeSyncData 7 true mergeTestDb [] []
        [makePasswordForm "def", makePasswordForm "xyz"]).2.2.1).countP
      (isPutFor 1000) = 1 ∧
    (∀ cs, Event.notifyLoginsChanged cs ∈
        (mergeSyncData 7 true mergeTestDb [] []
          [makePasswordForm "def", makePasswordForm "xyz"]).2.2.1 →
      ∀ c ∈ cs, c.primaryKey ≠ 1000) :=
  mergeSyncData_local_only 7 true mergeTestDb [] []
    [makePasswordForm "def", makePasswordForm "xyz"] 1000
    (makePasswordForm "abc") (by decide) (by decide) (by decide)
    (by decide) (by decide)

theorem countP_notify_trace (body : List Event)
    (cs : List PasswordStoreChange)
    (hb : ∀ e ∈ body, isNotifyEvent e = false) :
    (Event.beginTransaction :: body ++ [Event.commitTransaction] ++
      [Event.notifyLoginsChanged cs]).countP isNotifyEvent = 1 := by
  have hz : body.countP isNotifyEvent = 0 := by
    rw [List.countP_eq_zero]
    intro e he hbe
    rw [hb e he] at hbe
    exact Bool.noConfusion hbe
  rw [List.countP_append, List.countP_append,
    List.countP_cons_of_neg _ _ (by decide), hz, List.countP_singleton,
    List.countP_singleton]
  simp [isNotifyEvent]

/-- C6: every successfully committing batch of local-store mutations — an
`ApplySyncChanges` batch whose change list applies cleanly, and a
`MergeSyncData` run over a non-empty remote snapshot — raises exactly one
local-mutation notification, that notification carries the change record
of every mutation of the batch (the batch's mutation events filtered from
the transaction body list exactly match the notified change list mapped to
its mutations), and the notification sits strictly after the
`CommitTransaction` event while the transaction body contains neither a
commit nor a notification, so all mutations commit before the single
notification is raised. -/
theorem batch_single_notification_after_commit (mdStoreId : Nat)
    (tracking : Bool) (db : FakeDatabase) (mds : MetadataStore)
    (mcl : List MetadataOp) (changes : List EntityChange)
    (remotes : List PasswordForm) (db' : FakeDatabase)
    (cs : List PasswordStoreChange) (es : List Event)
    (hne : changes ≠ [])
    (hok : applyChangeList db changes = Except.ok (db', cs, es))
    (hrne : remotes ≠ []) :
    ((applySyncChanges mdStoreId tracking db mds mcl changes).2.2.1 =
        Event.beginTransaction :: es ++ [Event.commitTransaction] ++
          [Event.notifyLoginsChanged cs] ∧
      ((applySyncChanges mdStoreId tracking db mds mcl
          changes).2.2.1).countP isNotifyEvent = 1 ∧
      es.filter isLocalMutation = cs.map changeToEvent ∧
      (∀ ev ∈ es, isNotifyEvent ev = false ∧
        ev ≠ Event.commitTransaction)) ∧
    (∃ body,
      (mergeSyncData mdStoreId tracking db mds mcl remotes).2.2.1 =
        Event.beginTransaction :: body ++ [Event.commitTransaction] ++
          [Event.notifyLoginsChanged
            (mergeChangeSpec (localIndex db) db.nextKey remotes)] ∧
      ((mergeSyncData mdStoreId tracking db mds mcl
          remotes).2.2.1).countP isNotifyEvent = 1 ∧
      body.filter isLocalMutation =
        (mergeChangeSpec (localIndex db) db.nextKey remotes).map
          changeToEvent ∧
      (∀ ev ∈ body, isNotifyEvent ev = false ∧
        ev ≠ Event.commitTransaction)) := by
  obtain ⟨hlen, hfil, hev⟩ := applyChangeList_shape changes db db' cs es hok
  have hcs : cs ≠ [] := by
    intro hx
    have h0 : cs.length = 0 := by rw [hx]; rfl
    have hp : 0 < changes.length := List.length_pos.mpr hne
    omega
  have hta : (applySyncChanges mdStoreId tracking db mds mcl
      changes).2.2.1 =
      Event.beginTransaction :: es ++ [Event.commitTransaction] ++
        [Event.notifyLoginsChanged cs] := by
    rw [applySyncChanges_of_ok mdStoreId tracking db mds mcl changes db' cs
      es hne hcs hok]
  have hbm : ∀ e ∈ mergeEventSpec (localIndex db) db.nextKey remotes ++
      localOnlyPuts mdStoreId db.data (remotes.map getClientTag),
      isNotifyEvent e = false ∧ e ≠ Event.commitTransaction := by
    intro e he
    rcases List.mem_append.mp he with h1 | h1
    · rcases mergeEventSpec_mem (localIndex db) remotes db.nextKey e h1 with
        ⟨r, hx⟩ | ⟨r, hx⟩ | ⟨q, hx⟩ <;> subst hx <;>
        exact ⟨rfl, by intro hy; cases hy⟩
    · obtain ⟨q, -, hx, -⟩ := localOnlyPuts_mem mdStoreId db.data _ e h1
      subst hx
      exact ⟨rfl, by intro hy; cases hy⟩
  have htm : (mergeSyncData mdStoreId tracking db mds mcl
      remotes).2.2.1 =
      Event.beginTransaction ::
        (mergeEventSpec (localIndex db) db.nextKey remotes ++
         localOnlyPuts mdStoreId db.data (remotes.map getClientTag)) ++
        [Event.commitTransaction] ++
        [Event.notifyLoginsChanged
          (mergeChangeSpec (localIndex db) db.nextKey remotes)] := by
    rw [mergeSyncData_eq mdStoreId tracking db mds mcl remotes hrne]
    rfl
  have hfm : (mergeEventSpec (localIndex db) db.nextKey remotes ++
      localOnlyPuts mdStoreId db.data (remotes.map getClientTag)).filter
        isLocalMutation =
      (mergeChangeSpec (localIndex db) db.nextKey remotes).map
        changeToEvent := by
    rw [List.filter_append,
      mergeEventSpec_filter (localIndex db) remotes db.nextKey]
    have hlp : (localOnlyPuts mdStoreId db.data
        (remotes.map getClientTag)).filter isLocalMutation = [] := by
      rw [List.filter_eq_nil_iff]
      intro e he
      obtain ⟨q, -, hx, -⟩ := localOnlyPuts_mem mdStoreId db.data _ e he
      subst hx
      intro hy
      exact Bool.noConfusion hy
    rw [hlp, List.append_nil]
  refine ⟨⟨hta, ?_, hfil, hev⟩,
    ⟨mergeEventSpec (localIndex db) db.nextKey remotes ++
      localOnlyPuts mdStoreId db.data (remotes.map getClientTag),
      htm, ?_, hfm, hbm⟩⟩
  · rw [hta]
    exact countP_notify_trace es cs (fun e he => (hev e he).1)
  · rw [htm]
    exact countP_notify_trace _ _ (fun e he => (hbm e he).1)

/-- Witness for C1 on the merge test scenario: remote record "def" matches
the local record resident at primary key 1001; the merge updates it in
place, reports storage key 1001, and neither Puts nor Adds it. -/
theorem mergeSyncData_matched_pair_witness :
    (mergeSyncData 7 true mergeTestDb [] []
        ([] ++ makePasswordForm "def" :: [makePasswordForm "xyz"])).1.lookup
        1001 = some (makePasswordForm "def") ∧
    ((mergeSyncData 7 true mergeTestDb [] []
        ([] ++ makePasswordForm "def" ::
          [makePasswordForm "xyz"])).2.2.1).count
      (Event.updateLoginSync (makePasswordForm "def")) = 1 ∧
    ((mergeSyncData 7 true mergeTestDb [] []
        ([] ++ makePasswordForm "def" ::
          [makePasswordForm "xyz"])).2.2.1).count
      (Event.updateStorageKey 1001) = 1 ∧
    ((mergeSyncData 7 true mergeTestDb [] []
        ([] ++ makePasswordForm "def" ::
          [makePasswordForm "xyz"])).2.2.1).countP (isPutFor 1001) = 0 ∧
    ((mergeSyncData 7 true mergeTestDb [] []
        ([] ++ makePasswordForm "def" ::
          [makePasswordForm "xyz"])).2.2.1).count
      (Event.addLoginSync (makePasswordForm "def")) = 0 :=
  mergeSyncData_matched_pair 7 true mergeTestDb [] [] []
    [makePasswordForm "xyz"] (makePasswordForm "def") 1001 (by decide)
    (by decide) (by decide) (by decide)

/-- Witness for C2 on the merge test scenario: remote record "xyz" matches
no local record; the merge adds it under the fresh auto-increment key and
reports that key's storage key. -/
theorem mergeSyncData_remote_only_witness :
    mergeTestDb.lookup (mergeTestDb.nextKey +
      countUnmatched (localIndex mergeTestDb) [makePasswordForm "def"]) =
      none ∧
    (mergeSyncData 7 true mergeTestDb [] []
        ([makePasswordForm "def"] ++ makePasswordForm "xyz" ::
          [])).1.lookup
        (mergeTestDb.nextKey +
          countUnmatched (localIndex mergeTestDb)
            [makePasswordForm "def"]) = some (makePasswordForm "xyz") ∧
    ((mergeSyncData 7 true mergeTestDb [] []
        ([makePasswordForm "def"] ++ makePasswordForm "xyz" ::
          [])).2.2.1).count
      (Event.addLoginSync (makePasswordForm "xyz")) = 1 ∧
    ((mergeSyncData 7 true mergeTestDb [] []
        ([makePasswordForm "def"] ++ makePasswordForm "xyz" ::
          [])).2.2.1).count
      (Event.updateStorageKey (mergeTestDb.nextKey +
        countUnmatched (localIndex mergeTestDb)
          [makePasswordForm "def"])) = 1 ∧
    ((mergeSyncData 7 true mergeTestDb [] []
        ([makePasswordForm "def"] ++ makePasswordForm "xyz" ::
          [])).2.2.1).countP
      (isPutFor (mergeTestDb.nextKey +
        countUnmatched (localIndex mergeTestDb)
          [makePasswordForm "def"])) = 0 ∧
    ((mergeSyncData 7 true mergeTestDb [] []
        ([makePasswordForm "def"] ++ makePasswordForm "xyz" ::
          [])).2.2.1).count
      (Event.updateLoginSync (makePasswordForm "xyz")) = 0 :=
  mergeSyncData_remote_only 7 true mergeTestDb [] []
    [makePasswordForm "def"] [] (makePasswordForm "xyz") (by decide)
    (by decide) (by decide)

/-- Witness for C6 on a one-record creation batch and a one-record merge:
each run raises exactly one notification, carrying the batch's sole
mutation, after the commit. -/
theorem batch_single_notification_after_commit_witness :
    ((applySyncChanges 7 true FakeDatabase.empty [] []
        [EntityChange.add (makePasswordForm "abc")]).2.2.1 =
        Event.beginTransaction ::
          [Event.addLoginSync (makePasswordForm "abc"),
           Event.updateStorageKey 1] ++ [Event.commitTransaction] ++
          [Event.notifyLoginsChanged
            [PasswordStoreChange.mk ChangeType.ADD
              (makePasswordForm "abc") 1]] ∧
      ((applySyncChanges 7 true FakeDatabase.empty [] []
          [EntityChange.add (makePasswordForm "abc")]).2.2.1).countP
        isNotifyEvent = 1 ∧
      [Event.addLoginSync (makePasswordForm "abc"),
        Event.updateStorageKey 1].filter isLocalMutation =
        [PasswordStoreChange.mk ChangeType.ADD
          (makePasswordForm "abc") 1].map changeToEvent ∧
      (∀ ev ∈ [Event.addLoginSync (makePasswordForm "abc"),
          Event.updateStorageKey 1], isNotifyEvent ev = false ∧
        ev ≠ Event.commitTransaction)) ∧
    (∃ body,
      (mergeSyncData 7 true FakeDatabase.empty [] []
          [makePasswordForm "def"]).2.2.1 =
        Event.beginTransaction :: body ++ [Event.commitTransaction] ++
          [Event.notifyLoginsChanged
            (mergeChangeSpec (localIndex FakeDatabase.empty)
              FakeDatabase.empty.nextKey [makePasswordForm "def"])] ∧
      ((mergeSyncData 7 true FakeDatabase.empty [] []
          [makePasswordForm "def"]).2.2.1).countP isNotifyEvent = 1 ∧
      body.filter isLocalMutation =
        (mergeChangeSpec (localIndex FakeDatabase.empty)
          FakeDatabase.empty.nextKey [makePasswordForm "def"]).map
          changeToEvent ∧
      (∀ ev ∈ body, isNotifyEvent ev = false ∧
        ev ≠ Event.commitTransaction)) :=
  batch_single_notification_after_commit 7 true FakeDatabase.empty [] []
    [EntityChange.add (makePasswordForm "abc")] [makePasswordForm "def"]
    (FakeDatabase.mk [(1, makePasswordForm "abc")] 2)
    [PasswordStoreChange.mk ChangeType.ADD (makePasswordForm "abc") 1]
    [Event.addLoginSync (makePasswordForm "abc"),
     Event.updateStorageKey 1]
    (List.cons_ne_nil _ _) rfl (List.cons_ne_nil _ _)
